/-
Verification of the core of bt.cc (a behavior tree library that separates
immutable tree structure from per-entity mutable "blob" state).

The development shallowly embeds the C++ source (Source/bt.cc, Source/bt.h):
  * `Status`, `NodeBlob`, `Context` mirror the data model;
  * `nodeTick` mirrors `Node::Tick` (bt.cc:122-141), parameterized by the
    virtual hooks `OnEnter` / `Update` / `OnTerminate`.  In the library the
    base blob fields (`running`, `lastStatus`, `lastSeq`) are written only by
    `Node::Tick` itself; every override of the hooks touches only the node's
    additional state, so hooks act on an abstract extra-state type `γ`.
    The hook invocations performed by a tick are recorded in an event list;
  * the composite scheduling layer (`Refresh` / `Enqueue` / the `InternalUpdate`
    loops, and the weighted random selector) follows below;
  * the `std::priority_queue` used by `MixedQueueHelper` is modelled by the
    binary-heap algorithms of libstdc++ (`std::push_heap` / `std::pop_heap`),
    because the comparator built in `InternalOnBuild` (bt.cc:387) is not a
    strict weak ordering, so only the concrete heap algorithm determines the
    observed pop order.
-/
import Mathlib

namespace BT

/-- `enum class Status` (bt.h:24-30). -/
inductive Status where
  | undefined
  | running
  | success
  | failure
deriving DecidableEq, Repr

/-- The tick `Context` (bt.h:38-56).  Only the tick sequence number `seq` is
read by the code modelled here (`delta` and `data` are consumed by the time
decorators and user code, which are out of scope). -/
structure Ctx where
  seq : Nat
deriving DecidableEq, Repr

/-- `NodeBlob` (bt.h:63-68): per-(node, entity) record of the tick protocol. -/
structure NodeBlob where
  running : Bool := false
  lastStatus : Status := .undefined
  lastSeq : Nat := 0
deriving DecidableEq, Repr

/-- Observable events of one tick: the hook invocations of the node itself
(tagged with the node's id) and the `children[i]->Tick(ctx)` calls a composite
propagates (`childTick i`). -/
inductive Ev where
  | enter (id : Nat)
  | updateRun (id : Nat)
  | terminate (id : Nat) (s : Status)
  | childTick (i : Nat)
deriving DecidableEq, Repr

/-- Result of one `Node::Tick` call: the updated blob base fields, the updated
extra state, the returned status and the event trace. -/
structure TickResult (γ : Type) where
  blob : NodeBlob
  state : γ
  status : Status
  evs : List Ev
deriving DecidableEq

/-- `Node::Tick` (bt.cc:122-141), hook-parameterized.
`upd` returns the new extra state, the status, and the events produced while
updating (child ticks, for a composite). -/
def nodeTick {γ : Type} (id : Nat) (onEnter : Ctx → γ → γ)
    (upd : Ctx → γ → γ × Status × List Ev)
    (onTerminate : Ctx → Status → γ → γ)
    (ctx : Ctx) (b : NodeBlob) (g : γ) : TickResult γ :=
  -- First run of current round.
  let entered := b.running = false
  let g1 := if entered then onEnter ctx g else g
  let evs0 : List Ev := if entered then [Ev.enter id] else []
  let b1 := { b with running := true }
  let (g2, status, uevs) := upd ctx g1
  let evs1 := evs0 ++ Ev.updateRun id :: uevs
  let b2 := { b1 with lastStatus := status, lastSeq := ctx.seq }
  -- Last run of current round.
  if status = .failure ∨ status = .success then
    ⟨{ b2 with running := false }, onTerminate ctx status g2, status,
      evs1 ++ [Ev.terminate id status]⟩
  else
    ⟨b2, g2, status, evs1⟩

/-- An update hook that produces no events of its own (a leaf-like `Update`). -/
def plainUpd {γ : Type} (u : Ctx → γ → γ × Status) : Ctx → γ → γ × Status × List Ev :=
  fun c g => ((u c g).1, (u c g).2, [])

/-!  The binary heap behind `MixedQueueHelper`'s `q2` (bt.h:486-525).
`q2` is a `std::priority_queue<int>` whose comparator is built in
`InternalPriorityCompositeNode::InternalOnBuild` (bt.cc:387) as
`cmp(a, b) = p[a] < p[b] || a > b`.  This comparator is not a strict weak
ordering (for `a < b` with `p[a] < p[b]` both `cmp(a,b)` and `cmp(b,a)` hold),
so the container's documented ordering contract does not apply and the pop
order is whatever the concrete heap algorithms produce.  We therefore embed
the algorithms of libstdc++ (`std::push_heap`, `std::pop_heap` with its
bottom-up `__adjust_heap`), which `std::priority_queue::push/pop` call.
All index accesses below stay in bounds for the lengths these functions are
run at; `getD`'s default is never read. -/

/-- The loop body of `std::__push_heap`, fueled (the hole index strictly
decreases each iteration, so `fuel = hole` suffices; on exhaustion the value
is written at the hole, which never happens for sufficient fuel). -/
def siftUpGo (cmp : Nat → Nat → Bool) (v : Nat) : Nat → List Nat → Nat → List Nat
  | 0, a, hole => a.set hole v
  | fuel + 1, a, hole =>
    if hole = 0 then a.set 0 v
    else if cmp (a.getD ((hole - 1) / 2) 0) v then
      siftUpGo cmp v fuel (a.set hole (a.getD ((hole - 1) / 2) 0)) ((hole - 1) / 2)
    else a.set hole v

/-- `std::__push_heap`: sift the value `v` up from position `hole` towards the
root, shifting smaller-by-`cmp` parents down. -/
def siftUp (cmp : Nat → Nat → Bool) (a : List Nat) (hole : Nat) (v : Nat) : List Nat :=
  siftUpGo cmp v hole a hole

/-- `std::priority_queue::push`: append, then sift up from the last slot. -/
def heapPush (cmp : Nat → Nat → Bool) (a : List Nat) (v : Nat) : List Nat :=
  siftUp cmp (a ++ [v]) a.length v

/-- The descend loop of libstdc++'s `__adjust_heap`, fueled (the hole index
strictly increases below `a.length`, so `fuel = a.length` suffices): walk the
hole down, pulling up the by-`cmp` larger child, while the hole has two
children.  Returns the array and the final hole position. -/
def adjustDownGo (cmp : Nat → Nat → Bool) : Nat → List Nat → Nat → List Nat × Nat
  | 0, a, hole => (a, hole)
  | fuel + 1, a, hole =>
    if hole < (a.length - 1) / 2 then
      -- `secondChild = 2 * (hole + 1)`, decremented when the left child wins
      if cmp (a.getD (2 * (hole + 1)) 0) (a.getD (2 * (hole + 1) - 1) 0) then
        adjustDownGo cmp fuel (a.set hole (a.getD (2 * (hole + 1) - 1) 0))
          (2 * (hole + 1) - 1)
      else
        adjustDownGo cmp fuel (a.set hole (a.getD (2 * (hole + 1)) 0))
          (2 * (hole + 1))
    else (a, hole)

/-- The descend loop of `__adjust_heap` started with full fuel. -/
def adjustDown (cmp : Nat → Nat → Bool) (a : List Nat) (hole : Nat) : List Nat × Nat :=
  adjustDownGo cmp a.length a hole

/-- libstdc++ `__adjust_heap` on the logical range `[0, a.length)` with the
displaced value `v`: descend the hole (`adjustDown`), handle the single-child
slot of an even-length heap, then sift `v` back up. -/
def adjustHeap (cmp : Nat → Nat → Bool) (a : List Nat) (v : Nat) : List Nat :=
  if (adjustDown cmp a 0).1.length % 2 = 0 ∧
      (adjustDown cmp a 0).2 = ((adjustDown cmp a 0).1.length - 2) / 2 then
    siftUp cmp
      ((adjustDown cmp a 0).1.set (adjustDown cmp a 0).2
        ((adjustDown cmp a 0).1.getD (2 * ((adjustDown cmp a 0).2 + 1) - 1) 0))
      (2 * ((adjustDown cmp a 0).2 + 1) - 1) v
  else siftUp cmp (adjustDown cmp a 0).1 (adjustDown cmp a 0).2 v

/-- `std::priority_queue::pop`: return `top()` (the root) and the remaining
heap (`std::pop_heap` moves the last element out and adjusts, then
`pop_back`). -/
def popHeap (cmp : Nat → Nat → Bool) (a : List Nat) : Nat × List Nat :=
  (a.headD 0,
    if a.length ≤ 1 then []
    else adjustHeap cmp a.dropLast (a.getLastD 0))

/-- Pop repeatedly until the heap is empty (fueled; `fuel = a.length`
suffices since each pop removes exactly one element). -/
def heapPopAllFuel (cmp : Nat → Nat → Bool) : Nat → List Nat → List Nat
  | 0, _ => []
  | _, [] => []
  | fuel + 1, a =>
    let pr := popHeap cmp a
    pr.1 :: heapPopAllFuel cmp fuel pr.2

/-- The sequence of values obtained by pushing `xs` in order onto an empty
`q2` and then popping until empty. -/
def heapOrder (cmp : Nat → Nat → Bool) (xs : List Nat) : List Nat :=
  let h := xs.foldl (heapPush cmp) []
  heapPopAllFuel cmp h.length h

/-!  The composite scheduling layer (bt.cc:335-397).
Child priorities are the memoized `GetPriorityCurrentTick` values, which are
pure within one tick (see `getPriorityCurrentTick` below), so one tick of a
composite sees them as a function `p : Nat → Nat` over child indexes. -/

/-- The comparator of `InternalPriorityCompositeNode::InternalOnBuild`
(bt.cc:387): `cmp(a, b) = p[a] < p[b] || a > b`. -/
def childCmp (p : Nat → Nat) (a b : Nat) : Bool :=
  decide (p a < p b) || decide (a > b)

/-- One step of the loop of `InternalPriorityCompositeNode::Refresh`
(bt.cc:335-351).  State: (`v` = first valid priority value, `areAllEqual`). -/
def refreshStep (consider : Nat → Bool) (p : Nat → Nat) :
    Nat × Bool → Nat → Nat × Bool :=
  fun s i =>
    if consider i then
      let pi := p i
      let v := if s.1 = 0 then pi else s.1
      (v, if v ≠ pi then false else s.2)
    else s

/-- `Refresh`'s `areAllEqual` flag: are the priorities of all considerable
children equal on this tick? -/
def refreshAllEqual (consider : Nat → Bool) (p : Nat → Nat) (n : Nat) : Bool :=
  ((List.range n).foldl (refreshStep consider p) (0, true)).2

/-- `InternalPriorityCompositeNode::Enqueue` (bt.cc:353-374) combined with
`MixedQueueHelper::Pop` (bt.cc:289-296): the sequence of child indexes the
tick loop will dequeue.  `isPart` is `IsParatialConsidered()`: a constant of
the node class (true exactly for the stateful variants, bt.h:445,478).
If all considerable priorities are equal, the flat vector `q1` is used (for a
non-stateful node, the precomputed `simpleQ1Container = [0..n-1]` directly);
otherwise the considerable children are pushed into the binary heap `q2`. -/
def enqueueOrder (isPart : Bool) (consider : Nat → Bool) (p : Nat → Nat)
    (n : Nat) : List Nat :=
  let allEq := refreshAllEqual consider p n
  if allEq then
    if isPart = false then List.range n
    else (List.range n).filter consider
  else heapOrder (childCmp p) ((List.range n).filter consider)

/-!  The `InternalUpdate` loops.  A child's `Tick` is abstracted by
`cs : Nat → Status`, the status child `i` returns when ticked during this
composite tick; each such call is recorded as a `childTick` event.  The
`OnChildSuccess` / `OnChildFailure` hooks act on the stateful skip bitset
`st : List Bool` (`InternalStatefulCompositeNode::Blob::st`, bt.h:467-471);
for the non-stateful classes they are the no-op defaults (bt.h:451-454). -/

/-- `InternalStatefulCompositeNode::Skip` (bt.cc:260-263). -/
def skipHook : Nat → List Bool → List Bool := fun i st => st.set i true

/-- The no-op default child hook (bt.h:451-454). -/
def noHook : Nat → List Bool → List Bool := fun _ st => st

/-- `Considerable(i)`: the default is `true` (bt.h:448); the stateful variant
consults the skip bitset (bt.cc:255-258).  `isPart` selects the class. -/
def considerOf (isPart : Bool) (st : List Bool) : Nat → Bool :=
  fun i => if isPart then !(st.getD i false) else true

/-- `InternalSequenceNodeBase::InternalUpdate` (bt.cc:406-426): tick dequeued
children one by one; RUNNING or FAILURE stops, SUCCESS iff the queue drains. -/
def seqLoop (cs : Nat → Status) (onSucc onFail : Nat → List Bool → List Bool) :
    List Nat → List Bool → List Bool × Status × List Ev
  | [], st => (st, .success, [])
  | i :: rest, st =>
    match cs i with
    | .running => (st, .running, [Ev.childTick i])
    | .failure => (onFail i st, .failure, [Ev.childTick i])
    | _ =>
      let r := seqLoop cs onSucc onFail rest (onSucc i st)
      (r.1, r.2.1, Ev.childTick i :: r.2.2)

/-- `InternalSelectorNodeBase::InternalUpdate` (bt.cc:443-463). -/
def selLoop (cs : Nat → Status) (onSucc onFail : Nat → List Bool → List Bool) :
    List Nat → List Bool → List Bool × Status × List Ev
  | [], st => (st, .failure, [])
  | i :: rest, st =>
    match cs i with
    | .running => (st, .running, [Ev.childTick i])
    | .success => (onSucc i st, .success, [Ev.childTick i])
    | _ =>
      let r := selLoop cs onSucc onFail rest (onFail i st)
      (r.1, r.2.1, Ev.childTick i :: r.2.2)

/-- The counting loop of `InternalParallelNodeBase::InternalUpdate`
(bt.cc:549-568): ticks the whole queue, returning
(`cntFailure`, `cntSuccess`, `total`). -/
def parLoop (cs : Nat → Status) (onSucc onFail : Nat → List Bool → List Bool) :
    List Nat → List Bool → List Bool × (Nat × Nat × Nat) × List Ev
  | [], st => (st, (0, 0, 0), [])
  | i :: rest, st =>
    let st1 := if cs i = .failure then onFail i st else st
    let st2 := if cs i = .success then onSucc i st1 else st1
    let r := parLoop cs onSucc onFail rest st2
    (r.1,
      (r.2.1.1 + (if cs i = .failure then 1 else 0),
        r.2.1.2.1 + (if cs i = .success then 1 else 0),
        r.2.1.2.2 + 1),
      Ev.childTick i :: r.2.2)

/-- The verdict of `InternalParallelNodeBase::InternalUpdate` (bt.cc:570-576)
from (`cntFailure`, `cntSuccess`, `total`). -/
def parVerdict (cnt : Nat × Nat × Nat) : Status :=
  if cnt.2.1 = cnt.2.2 then .success
  else if cnt.1 > 0 then .failure
  else .running

/-- `InternalPriorityCompositeNode::Update` (bt.cc:391-397) for a sequence
node: `Refresh`, `Enqueue`, then propagate ticks. -/
def seqUpdateF (cs : Nat → Status) (p : Nat → Nat) (n : Nat) (isPart : Bool)
    (onSucc onFail : Nat → List Bool → List Bool) :
    Ctx → List Bool → List Bool × Status × List Ev :=
  fun _ st =>
    let consider := considerOf isPart st
    seqLoop cs onSucc onFail (enqueueOrder isPart consider p n) st

/-- `InternalPriorityCompositeNode::Update` for a selector node. -/
def selUpdateF (cs : Nat → Status) (p : Nat → Nat) (n : Nat) (isPart : Bool)
    (onSucc onFail : Nat → List Bool → List Bool) :
    Ctx → List Bool → List Bool × Status × List Ev :=
  fun _ st =>
    let consider := considerOf isPart st
    selLoop cs onSucc onFail (enqueueOrder isPart consider p n) st

/-- `InternalPriorityCompositeNode::Update` for a parallel node. -/
def parUpdateF (cs : Nat → Status) (p : Nat → Nat) (n : Nat) (isPart : Bool)
    (onSucc onFail : Nat → List Bool → List Bool) :
    Ctx → List Bool → List Bool × Status × List Ev :=
  fun _ st =>
    let consider := considerOf isPart st
    let r := parLoop cs onSucc onFail (enqueueOrder isPart consider p n) st
    (r.1, parVerdict r.2.1, r.2.2)

/-- `InternalStatefulCompositeNode::OnTerminate` (bt.cc:265-269): clear the
whole skip bitset. -/
def statefulTerm : Ctx → Status → List Bool → List Bool :=
  fun _ _ st => st.map (fun _ => false)

/-- `StatefulSequenceNode` full tick: `Node::Tick` around the priority
composite update, with `OnChildSuccess = Skip` (bt.cc:431-434) and the
skip-clearing `OnTerminate`. -/
def statefulSequenceTick (cs : Nat → Status) (p : Nat → Nat) (n : Nat)
    (ctx : Ctx) (b : NodeBlob) (st : List Bool) : TickResult (List Bool) :=
  nodeTick 0 (fun _ s => s) (seqUpdateF cs p n true skipHook noHook)
    statefulTerm ctx b st

/-- `StatefulSelectorNode` full tick, `OnChildFailure = Skip` (bt.cc:468-471). -/
def statefulSelectorTick (cs : Nat → Status) (p : Nat → Nat) (n : Nat)
    (ctx : Ctx) (b : NodeBlob) (st : List Bool) : TickResult (List Bool) :=
  nodeTick 0 (fun _ s => s) (selUpdateF cs p n true noHook skipHook)
    statefulTerm ctx b st

/-- `StatefulParallelNode` full tick, `OnChildSuccess = Skip` (bt.cc:582-585). -/
def statefulParallelTick (cs : Nat → Status) (p : Nat → Nat) (n : Nat)
    (ctx : Ctx) (b : NodeBlob) (st : List Bool) : TickResult (List Bool) :=
  nodeTick 0 (fun _ s => s) (parUpdateF cs p n true skipHook noHook)
    statefulTerm ctx b st

/-!  The weighted random selector (bt.cc:482-532).  `unsigned int` arithmetic
wraps modulo `2^32`.  The process-wide RNG is modelled as an input stream
`us : List Nat`; a draw of `std::uniform_int_distribution(1, total)` consumes
one stream element `u` and yields `1 + u % total` (any value of `[1, total]`
is realizable).  The loop is fueled: `none` means the C++ loop has not
returned within `fuel` iterations. -/

/-- `2^32`, the modulus of `unsigned int`. -/
def u32 : Nat := 4294967296

/-- The initial `total`: sum of considerable children's refreshed priorities
(bt.cc:486-489), with wrapping `unsigned` addition. -/
def rsTotal (consider : Nat → Bool) (p : Nat → Nat) (n : Nat) : Nat :=
  (List.range n).foldl (fun t i => if consider i then (t + p i) % u32 else t) 0

/-- The scan of the `select` lambda (bt.cc:494-506): cumulative sum over
considerable children, first child with `v ≤ s` wins; the unreachable-by-
intent fallback returns child `0`. -/
def selectChildAux (consider : Nat → Bool) (p : Nat → Nat) (v : Nat) :
    List Nat → Nat → Nat
  | [], _ => 0
  | i :: rest, s =>
    if consider i then
      let s2 := (s + p i) % u32
      if v ≤ s2 then i else selectChildAux consider p v rest s2
    else selectChildAux consider p v rest s

/-- `select()` over children `0..n-1`. -/
def selectChild (consider : Nat → Bool) (p : Nat → Nat) (n : Nat) (v : Nat) : Nat :=
  selectChildAux consider p v (List.range n) 0

/-- The `while (total)` loop of `InternalRandomSelectorNodeBase::Update`
(bt.cc:511-529).  A non-RUNNING, non-SUCCESS child status takes the failure
path: `OnChildFailure(i)`, then `total -= p[i]` (wrapping) and a redraw. -/
def rsLoop (cs : Nat → Status) (p : Nat → Nat) (n : Nat)
    (onFail : Nat → List Bool → List Bool) (isPart : Bool) :
    Nat → Nat → List Nat → List Bool → List Bool × Option Status × List Ev
  | 0, _, _, st => (st, none, [])
  | fuel + 1, total, us, st =>
    if total = 0 then (st, some .failure, [])
    else
      let v := 1 + us.headD 0 % total
      let i := selectChild (considerOf isPart st) p n v
      match cs i with
      | .running => (st, some .running, [Ev.childTick i])
      | .success => (st, some .success, [Ev.childTick i])
      | _ =>
        let st2 := onFail i st
        let total2 := (total + (u32 - p i % u32)) % u32
        let r := rsLoop cs p n onFail isPart fuel total2 us.tail st2
        (r.1, r.2.1, Ev.childTick i :: r.2.2)

/-- `InternalRandomSelectorNodeBase::Update` (bt.cc:482-532): `Refresh`, sum
the considerable priorities, then the sampling loop.  For the non-stateful
`RandomSelectorNode`, `isPart = false` and `onFail = noHook`; the stateful
variant passes `isPart = true, onFail = skipHook` (bt.cc:537-540). -/
def randomSelectorUpdate (cs : Nat → Status) (p : Nat → Nat) (n : Nat)
    (isPart : Bool) (onFail : Nat → List Bool → List Bool)
    (fuel : Nat) (us : List Nat) (st : List Bool) :
    List Bool × Option Status × List Ev :=
  let consider := considerOf isPart st
  rsLoop cs p n onFail isPart fuel (rsTotal consider p n) us st

/-- `StatefulRandomSelectorNode` full tick.  `OnEnter` is not overridden, so
the state `Update` sees is the entry state; `none` propagates a
non-terminating C++ loop. -/
def statefulRandomSelectorTick (cs : Nat → Status) (p : Nat → Nat) (n : Nat)
    (fuel : Nat) (us : List Nat) (ctx : Ctx) (b : NodeBlob) (st : List Bool) :
    Option (TickResult (List Bool)) :=
  match (randomSelectorUpdate cs p n true skipHook fuel us st).2.1 with
  | none => none
  | some _ =>
    some (nodeTick 0 (fun _ s => s)
      (fun _ s =>
        let r := randomSelectorUpdate cs p n true skipHook fuel us s
        (r.1, (r.2.1.getD .undefined), r.2.2))
      statefulTerm ctx b st)

/-!  Priority memoization (bt.cc:103-114) and the composite priority
(bt.cc:232-239). -/

/-- The per-node priority cache: `priorityCurrentTick` (0 = uncomputed) and
`priorityCurrentTickSeq` (bt.h:283-286). -/
structure PrioCache where
  val : Nat := 0
  seq : Nat := 0
deriving DecidableEq, Repr

/-- `Node::GetPriorityCurrentTick` (bt.cc:103-114).  Returns the value, the
new cache, and how many times the virtual `Priority(ctx)` was invoked. -/
def getPriorityCurrentTick (prio : Ctx → Nat) (ctx : Ctx) (c : PrioCache) :
    Nat × PrioCache × Nat :=
  let c1 := if ctx.seq ≠ c.seq then { c with val := 0 } else c
  if c1.val = 0 then (prio ctx, ⟨prio ctx, ctx.seq⟩, 1)
  else (c1.val, c1, 0)

/-- A sequence of `k` `GetPriorityCurrentTick` calls with the same context:
the list of returned values, the final cache, and the total number of
`Priority` invocations. -/
def gpctIter (prio : Ctx → Nat) (ctx : Ctx) :
    Nat → PrioCache → List Nat × PrioCache × Nat
  | 0, c => ([], c, 0)
  | k + 1, c =>
    let r1 := getPriorityCurrentTick prio ctx c
    let r2 := gpctIter prio ctx k r1.2.1
    (r1.1 :: r2.1, r2.2.1, r1.2.2 + r2.2.2)

/-- `CompositeNode::Priority` (bt.cc:232-239): max of the considerable
children's memoized per-tick priorities, starting from `ans = 0`. -/
def compositePriority (consider : Nat → Bool) (childPrio : Nat → Nat)
    (n : Nat) : Nat :=
  (List.range n).foldl
    (fun ans i => if consider i then max ans (childPrio i) else ans) 0

/-!  The fixed blob store (bt.h:1271-1310, bt.cc:19-27). -/

/-- Outcome of a blob-store `Make` call.  `fatal` models
`throw std::runtime_error` (never a `Status`). -/
inductive MakeOutcome where
  | fatal
  | allocated
  | existing
deriving DecidableEq, Repr

/-- `FixedTreeBlob::Allocate` (bt.h:1289-1298): hard error when the slot
index is out of range or the blob does not fit in a slot. -/
def fixedAllocate (numNodes maxSizeNodeBlob idx size : Nat) : MakeOutcome :=
  if idx ≥ numNodes then .fatal
  else if size > maxSizeNodeBlob then .fatal
  else .allocated

/-- `ITreeBlob::Make` (bt.cc:19-27) on a fixed blob store.
`std::size_t idx = id - 1` is computed in 32-bit `unsigned` arithmetic
(`NodeId` is `unsigned int`), so `id = 0` wraps.  `exist` abstracts the
store's existence flags; a call that must allocate has `exist idx = false`.
(For an in-range store `Exist` reads the slot's first byte; the C++ even
performs this read out of bounds for `idx ≥ NumNodes`, before `Allocate`
would throw.) -/
def fixedMake (numNodes maxSizeNodeBlob : Nat) (exist : Nat → Bool)
    (id size : Nat) : MakeOutcome :=
  let idx := (id + (u32 - 1)) % u32
  if exist idx then .existing
  else fixedAllocate numNodes maxSizeNodeBlob idx size

/-!  `ForceSuccessNode` / `ForceFailureNode` (bt.cc:767-781).  Both call the
child's `Update` directly — not `Tick` — so none of the child's
enter/terminate bookkeeping runs.  In the library the base blob fields
(`running`, `lastStatus`, `lastSeq`) are written exclusively by `Node::Tick`
(bt.cc:122-141); every `Update` override touches only the node's additional
state, so the child's `Update` is typed `Ctx → γ → γ × Status` over its extra
state `γ`, and the child's `NodeBlob` is carried separately. -/

/-- `ForceSuccessNode::Update` (bt.cc:770-773)'s result coercion. -/
def coerceForceSuccess (s : Status) : Status :=
  if s = .running then .running else .success

/-- `ForceFailureNode::Update` (bt.cc:778-781)'s result coercion. -/
def coerceForceFailure (s : Status) : Status :=
  if s = .running then .running else .failure

/-- A full tick of a `ForceSuccessNode` (node id 0) over a child (node id 1)
with blob `cb` and extra state `g`: the decorator's own `Tick` wrapper runs,
and its `Update` invokes the child's `Update` directly. -/
def forceSuccessTick {γ : Type} (childU : Ctx → γ → γ × Status) (ctx : Ctx)
    (b : NodeBlob) (cb : NodeBlob) (g : γ) : TickResult (NodeBlob × γ) :=
  nodeTick 0 (fun _ s => s)
    (fun c s =>
      let r := childU c s.2
      ((s.1, r.1), coerceForceSuccess r.2, []))
    (fun _ _ s => s) ctx b (cb, g)

/-- A full tick of a `ForceFailureNode`, as `forceSuccessTick`. -/
def forceFailureTick {γ : Type} (childU : Ctx → γ → γ × Status) (ctx : Ctx)
    (b : NodeBlob) (cb : NodeBlob) (g : γ) : TickResult (NodeBlob × γ) :=
  nodeTick 0 (fun _ s => s)
    (fun c s =>
      let r := childU c s.2
      ((s.1, r.1), coerceForceFailure r.2, []))
    (fun _ _ s => s) ctx b (cb, g)

/-!  Multi-tick rounds of a stateful composite.  A tick function takes the
per-tick inputs (child outcomes, priorities, context — and, for the random
selector, the random stream and loop fuel) and the state (the composite's
`NodeBlob` and its skip bitset), returning `none` if the C++ loop would not
return. -/

/-- Run a list of per-tick inputs through a tick function, stopping at
divergence; returns the per-tick (status, events) list and the final state. -/
def runTicks {ι St : Type} (F : ι → St → Option (St × Status × List Ev)) :
    List ι → St → List (Status × List Ev) × St
  | [], s => ([], s)
  | x :: xs, s =>
    match F x s with
    | none => ([], s)
    | some (s2, st, evs) =>
      let r := runTicks F xs s2
      ((st, evs) :: r.1, r.2)

/-- `StatefulSequenceNode` as a tick function on (blob, skip set). -/
def seqTickF (n : Nat) (x : (Nat → Status) × (Nat → Nat) × Ctx)
    (s : NodeBlob × List Bool) :
    Option ((NodeBlob × List Bool) × Status × List Ev) :=
  let r := statefulSequenceTick x.1 x.2.1 n x.2.2 s.1 s.2
  some ((r.blob, r.state), r.status, r.evs)

/-- `StatefulSelectorNode` as a tick function on (blob, skip set). -/
def selTickF (n : Nat) (x : (Nat → Status) × (Nat → Nat) × Ctx)
    (s : NodeBlob × List Bool) :
    Option ((NodeBlob × List Bool) × Status × List Ev) :=
  let r := statefulSelectorTick x.1 x.2.1 n x.2.2 s.1 s.2
  some ((r.blob, r.state), r.status, r.evs)

/-- `StatefulParallelNode` as a tick function on (blob, skip set). -/
def parTickF (n : Nat) (x : (Nat → Status) × (Nat → Nat) × Ctx)
    (s : NodeBlob × List Bool) :
    Option ((NodeBlob × List Bool) × Status × List Ev) :=
  let r := statefulParallelTick x.1 x.2.1 n x.2.2 s.1 s.2
  some ((r.blob, r.state), r.status, r.evs)

/-- `StatefulRandomSelectorNode` as a tick function on (blob, skip set);
the input also carries the loop fuel and the random stream. -/
def rsTickF (n : Nat)
    (x : (Nat → Status) × (Nat → Nat) × Nat × List Nat × Ctx)
    (s : NodeBlob × List Bool) :
    Option ((NodeBlob × List Bool) × Status × List Ev) :=
  match statefulRandomSelectorTick x.1 x.2.1 n x.2.2.1 x.2.2.2.1 x.2.2.2.2
      s.1 s.2 with
  | none => none
  | some r => some ((r.blob, r.state), r.status, r.evs)

/-- The single-tick skip discipline of a stateful composite with `n`
children, under a per-input precondition `Pre`: from a well-sized skip set
(`s.2.length = n`, as `OnBlobAllocated` establishes) with child `i` marked,
one tick never ticks child `i`, keeps the set well-sized, keeps `i` marked
unless the tick is terminal, and on a terminal tick leaves the whole skip set
clear (the composite's own `OnTerminate`). -/
def SkipInvariant {ι : Type} (n : Nat) (Pre : ι → Prop)
    (F : ι → (NodeBlob × List Bool) →
      Option ((NodeBlob × List Bool) × Status × List Ev)) : Prop :=
  ∀ (x : ι), Pre x → ∀ (s : NodeBlob × List Bool) (i : Nat),
    s.2.length = n → s.2.getD i false = true →
    ∀ r ∈ F x s,
      r.1.2.length = n ∧
      Ev.childTick i ∉ r.2.2 ∧
      (r.2.1 ≠ .success ∧ r.2.1 ≠ .failure → r.1.2.getD i false = true) ∧
      ((r.2.1 = .success ∨ r.2.1 = .failure) →
        ∀ j, r.1.2.getD j false = false)

/-- The round-level consequence: while every tick of a round keeps returning
RUNNING, a child marked in the skip set at the start is never ticked on any
later tick of the round and stays marked. -/
def NeverTicksSkipped {ι : Type} (n : Nat) (Pre : ι → Prop)
    (F : ι → (NodeBlob × List Bool) →
      Option ((NodeBlob × List Bool) × Status × List Ev)) : Prop :=
  ∀ (xs : List ι) (s : NodeBlob × List Bool) (i : Nat),
    (∀ x ∈ xs, Pre x) → s.2.length = n → s.2.getD i false = true →
    (∀ out ∈ (runTicks F xs s).1, out.1 = .running) →
    (∀ out ∈ (runTicks F xs s).1, Ev.childTick i ∉ out.2) ∧
    (runTicks F xs s).2.2.getD i false = true

end BT

namespace BT

/-- C1. For every node and bound entity blob, one call to `Tick(ctx)`:
invokes `OnEnter` exactly once and before `Update` when the blob's `running`
flag is false; records `lastStatus` = the status returned by `Update` and
`lastSeq = ctx.seq`; and invokes `OnTerminate(ctx, status)` exactly once and
resets `running` to false if and only if the status is SUCCESS or FAILURE
(`running` stays true when `Update` returns RUNNING). -/
theorem nodeTick_round_protocol {γ : Type} (onEnter : Ctx → γ → γ)
    (u : Ctx → γ → γ × Status) (onTerminate : Ctx → Status → γ → γ)
    (id : Nat) (ctx : Ctx) (b : NodeBlob) (g : γ) :
    let r := nodeTick id onEnter (plainUpd u) onTerminate ctx b g
    (r.evs.count (Ev.enter id) = if b.running then 0 else 1) ∧
    (b.running = false → ∃ rest, r.evs = Ev.enter id :: Ev.updateRun id :: rest) ∧
    r.blob.lastStatus = r.status ∧
    r.blob.lastSeq = ctx.seq ∧
    r.status = (u ctx (if b.running then g else onEnter ctx g)).2 ∧
    ((r.evs.count (Ev.terminate id r.status) = 1 ∧ r.blob.running = false) ↔
      (r.status = .success ∨ r.status = .failure)) ∧
    (r.status = .running → r.blob.running = true) := by
  cases hb : b.running <;>
    rcases hu : u ctx (if b.running then g else onEnter ctx g) with ⟨g2, st⟩ <;>
      rw [hb] at hu <;> simp only [if_true, if_false, Bool.false_eq_true] at hu <;>
        cases st <;>
          simp [nodeTick, plainUpd, hb, hu]

/-- Witness for C1 at a concrete instantiation. -/
theorem nodeTick_round_protocol_witness :
    let b : NodeBlob := {}
    let u : Ctx → Unit → Unit × Status := fun _ g => (g, Status.success)
    let r := nodeTick 0 (fun _ g => g) (plainUpd u) (fun _ _ g => g) ⟨5⟩ b ()
    (r.evs.count (Ev.enter 0) = if b.running then 0 else 1) ∧
    (b.running = false → ∃ rest, r.evs = Ev.enter 0 :: Ev.updateRun 0 :: rest) ∧
    r.blob.lastStatus = r.status ∧
    r.blob.lastSeq = Ctx.seq ⟨5⟩ ∧
    r.status = (u ⟨5⟩ (if b.running then () else ())).2 ∧
    ((r.evs.count (Ev.terminate 0 r.status) = 1 ∧ r.blob.running = false) ↔
      (r.status = .success ∨ r.status = .failure)) ∧
    (r.status = .running → r.blob.running = true) :=
  nodeTick_round_protocol (fun _ g => g) (fun _ g => (g, Status.success))
    (fun _ _ g => g) 0 (⟨5⟩ : Ctx) ({} : NodeBlob) ()

theorem foldl_max_consider (consider : Nat → Bool) (f : Nat → Nat) :
    ∀ (l : List Nat) (a : Nat),
      l.foldl (fun ans i => if consider i then max ans (f i) else ans) a =
        max a (((l.filter consider).map f).foldr max 0)
  | [], a => by simp
  | i :: t, a => by
    by_cases h : consider i <;>
      simp [h, foldl_max_consider consider f t, Nat.max_assoc]

/-- C10. `CompositeNode::Priority` equals the maximum of the considerable
children's memoized per-tick priorities, and it is 0 whenever no child is
considerable — even though the `Priority` contract requires strictly
positive values at the public interface. -/
theorem compositePriority_max_considerable (consider : Nat → Bool)
    (childPrio : Nat → Nat) (n : Nat) :
    compositePriority consider childPrio n =
      ((((List.range n).filter consider).map childPrio).foldr max 0) ∧
    ((∀ i < n, consider i = false) → compositePriority consider childPrio n = 0) := by
  have hfold := foldl_max_consider consider childPrio (List.range n) 0
  constructor
  · simpa [compositePriority] using hfold
  · intro hnone
    have hnil : (List.range n).filter consider = [] := by
      rw [List.filter_eq_nil_iff]
      intro i hi
      simp [hnone i (List.mem_range.mp hi)]
    simpa [compositePriority, hnil] using hfold

/-- Witness for C10 with no considerable child. -/
theorem compositePriority_max_considerable_witness :
    compositePriority (fun _ => false) (fun j => j + 3) 2 = 0 ∧
    compositePriority (fun i => i ≠ 1) (fun j => j + 3) 3 =
      ((((List.range 3).filter (fun i => i ≠ 1)).map (fun j => j + 3)).foldr max 0) :=
  ⟨(compositePriority_max_considerable (fun _ => false) (fun j => j + 3) 2).2
      (by decide),
    (compositePriority_max_considerable (fun i => i ≠ 1) (fun j => j + 3) 3).1⟩

theorem gpct_settled (prio : Ctx → Nat) (ctx : Ctx) (hp : 0 < prio ctx) :
    ∀ k, gpctIter prio ctx k ⟨prio ctx, ctx.seq⟩ =
      (List.replicate k (prio ctx), ⟨prio ctx, ctx.seq⟩, 0)
  | 0 => by simp [gpctIter]
  | k + 1 => by
    have hne : prio ctx ≠ 0 := Nat.pos_iff_ne_zero.mp hp
    simp [gpctIter, getPriorityCurrentTick, hne, gpct_settled prio ctx hp k,
      List.replicate_succ]

/-- C9. Under the contract that `Priority(ctx)` is pure within a tick and
strictly positive, any sequence of `GetPriorityCurrentTick` calls sharing
`ctx.seq` (from any cache state reachable under that contract) returns
exactly `Priority(ctx)` every time, and invokes `Priority` at most once:
the memoized version is equivalent to the unmemoized one. -/
theorem getPriorityCurrentTick_memoized (prio : Ctx → Nat) (ctx : Ctx)
    (c : PrioCache) (k : Nat) (hp : 0 < prio ctx)
    (hvalid : c.seq ≠ ctx.seq ∨ c.val = 0 ∨ c.val = prio ctx) :
    (gpctIter prio ctx k c).1 = List.replicate k (prio ctx) ∧
    (gpctIter prio ctx k c).2.2 ≤ 1 := by
  have hne : prio ctx ≠ 0 := Nat.pos_iff_ne_zero.mp hp
  cases k with
  | zero => simp [gpctIter]
  | succ k =>
    have hstep : getPriorityCurrentTick prio ctx c =
        (prio ctx, (⟨prio ctx, ctx.seq⟩ : PrioCache), 1) ∨
        getPriorityCurrentTick prio ctx c =
        (prio ctx, (⟨prio ctx, ctx.seq⟩ : PrioCache), 0) := by
      rcases hvalid with hseq | hval | hval
      · left
        have : ctx.seq ≠ c.seq := fun h => hseq h.symm
        simp [getPriorityCurrentTick, this]
      · by_cases hseq : ctx.seq ≠ c.seq
        · left; simp [getPriorityCurrentTick, hseq]
        · left; simp [getPriorityCurrentTick, hseq, hval]
      · by_cases hseq : ctx.seq ≠ c.seq
        · left; simp [getPriorityCurrentTick, hseq]
        · right
          push_neg at hseq
          rcases c with ⟨cv, cseq⟩
          simp only at hval hseq
          subst hval
          subst hseq
          simp [getPriorityCurrentTick, hne]
    rcases hstep with h | h <;>
      simp [gpctIter, h, gpct_settled prio ctx hp k, List.replicate_succ]

/-- Witness for C9: three same-seq calls from a fresh cache. -/
theorem getPriorityCurrentTick_memoized_witness :
    (gpctIter (fun _ => 3) ⟨7⟩ 3 {}).1 = List.replicate 3 3 ∧
    (gpctIter (fun _ => 3) ⟨7⟩ 3 {}).2.2 ≤ 1 :=
  getPriorityCurrentTick_memoized (fun _ => 3) ⟨7⟩ {} 3 (by decide)
    (Or.inl (by decide))

/-- C7, counterexample.  The claim's fatality condition `id ≥ NumNodes` is
wrong at the boundary: with `NumNodes = 2, MaxSizeNodeBlob = 4`, a must-
allocate `Make` with `id = 2` and `size = 1` allocates successfully (slot
index `id - 1 = 1` is in range), yet `2 ≥ 2` holds. -/
theorem fixedMake_boundary_counterexample :
    ¬ ((fixedMake 2 4 (fun _ => false) 2 1 = MakeOutcome.fatal) ↔
        (2 ≥ 2 ∨ 1 > 4)) := by
  have h : fixedMake 2 4 (fun _ => false) 2 1 = MakeOutcome.allocated := by rfl
  simp [h]

/-- C7 as amended.  A must-allocate `Make(id, size)` on a fixed blob store
fails fatally iff the slot index `id - 1` (computed in 32-bit unsigned
arithmetic, so `id = 0` wraps to `2^32 - 1`) is `≥ NumNodes`, or
`size > MaxSizeNodeBlob`; for 1-based ids this is `id > NumNodes`, so
`id = NumNodes` still allocates. -/
theorem fixedMake_fatal_iff (numNodes maxSize : Nat) (exist : Nat → Bool)
    (id size : Nat) (hmust : exist ((id + (u32 - 1)) % u32) = false) :
    (fixedMake numNodes maxSize exist id size = MakeOutcome.fatal ↔
      ((id + (u32 - 1)) % u32 ≥ numNodes ∨ size > maxSize)) ∧
    (1 ≤ id → id < u32 → (id + (u32 - 1)) % u32 = id - 1) := by
  constructor
  · simp only [fixedMake, fixedAllocate, hmust, Bool.false_eq_true, if_false]
    by_cases h1 : (id + (u32 - 1)) % u32 ≥ numNodes <;>
      by_cases h2 : size > maxSize <;>
        simp [h1, h2]
  · intro h1 h2
    simp only [u32] at h2 ⊢
    omega

/-- Witness for C7's amended claim: `id = 3` on a 2-slot store is fatal. -/
theorem fixedMake_fatal_iff_witness :
    (fixedMake 2 4 (fun _ => false) 3 1 = MakeOutcome.fatal ↔
      ((3 + (u32 - 1)) % u32 ≥ 2 ∨ 1 > 4)) ∧
    (1 ≤ 3 → 3 < u32 → (3 + (u32 - 1)) % u32 = 3 - 1) :=
  fixedMake_fatal_iff 2 4 (fun _ => false) 3 1 (by rfl)

/-- C8. `ForceSuccessNode` / `ForceFailureNode` invoke the child's `Update`
directly instead of `Tick`: across a full decorator tick the child's
`OnEnter` and `OnTerminate` are never invoked, the child's blob fields
(`running`, `lastStatus`, `lastSeq`) are unchanged, the child's `Update`
does run, and the result is RUNNING when the child's `Update` returns
RUNNING and is coerced to SUCCESS (resp. FAILURE) otherwise. -/
theorem force_decorators_bypass_child_hooks {γ : Type}
    (childU : Ctx → γ → γ × Status) (ctx : Ctx) (b cb : NodeBlob) (g : γ) :
    let r := forceSuccessTick childU ctx b cb g
    let rf := forceFailureTick childU ctx b cb g
    r.state.1 = cb ∧ rf.state.1 = cb ∧
    Ev.enter 1 ∉ r.evs ∧ (∀ s, Ev.terminate 1 s ∉ r.evs) ∧
    Ev.enter 1 ∉ rf.evs ∧ (∀ s, Ev.terminate 1 s ∉ rf.evs) ∧
    r.state.2 = (childU ctx g).1 ∧ rf.state.2 = (childU ctx g).1 ∧
    r.status = (if (childU ctx g).2 = .running then .running else .success) ∧
    rf.status = (if (childU ctx g).2 = .running then .running else .failure) := by
  rcases hu : childU ctx g with ⟨g2, st⟩
  cases hb : b.running <;> cases st <;>
    simp [forceSuccessTick, forceFailureTick, nodeTick, hb, hu,
      coerceForceSuccess, coerceForceFailure]

/-- Witness for C8 with a concrete child update. -/
theorem force_decorators_bypass_child_hooks_witness :
    let u : Ctx → Nat → Nat × Status := fun _ k => (k + 1, Status.failure)
    let cb : NodeBlob := ⟨true, .running, 4⟩
    let r := forceSuccessTick u ⟨9⟩ {} cb 0
    let rf := forceFailureTick u ⟨9⟩ {} cb 0
    r.state.1 = cb ∧ rf.state.1 = cb ∧
    Ev.enter 1 ∉ r.evs ∧ (∀ s, Ev.terminate 1 s ∉ r.evs) ∧
    Ev.enter 1 ∉ rf.evs ∧ (∀ s, Ev.terminate 1 s ∉ rf.evs) ∧
    r.state.2 = (u ⟨9⟩ 0).1 ∧ rf.state.2 = (u ⟨9⟩ 0).1 ∧
    r.status = (if (u ⟨9⟩ 0).2 = .running then .running else .success) ∧
    rf.status = (if (u ⟨9⟩ 0).2 = .running then .running else .failure) :=
  force_decorators_bypass_child_hooks (fun _ k => (k + 1, Status.failure))
    ⟨9⟩ {} ⟨true, .running, 4⟩ 0

/-!  The heap operations permute their contents: every push inserts exactly
its value and every pop removes exactly the returned root, independently of
the comparator (the sift loops only move elements around).  These lemmas
justify that a composite dequeues exactly the considerable children. -/

theorem getD_eq_getElem_of_lt (l : List Nat) (i : Nat) (h : i < l.length) :
    l.getD i 0 = l[i] := by
  simp [List.getD_eq_getElem?_getD, List.getElem?_eq_getElem h]

theorem set_getD_self : ∀ (l : List Nat) (i : Nat), i < l.length →
    l.set i (l.getD i 0) = l
  | [], i, h => by simp at h
  | c :: t, 0, _ => by simp
  | c :: t, i + 1, h => by
    simp only [List.set_cons_succ, List.cons.injEq, true_and]
    exact set_getD_self t i (by simpa using h)

theorem perm_cons_set (a b : Nat) :
    ∀ (t : List Nat) (k : Nat), k < t.length →
      List.Perm (a :: t.set k b) (b :: t.set k a)
  | [], k, h => by simp at h
  | d :: t2, 0, _ => by simpa using List.Perm.swap b a t2
  | d :: t2, k + 1, h => by
    simp only [List.set_cons_succ]
    exact (List.Perm.swap d a _).trans
      ((List.Perm.cons d (perm_cons_set a b t2 k (by simpa using h))).trans
        (List.Perm.swap b d _))

theorem perm_set_set (x y : Nat) :
    ∀ (l : List Nat) (i j : Nat), i < l.length → j < l.length → i ≠ j →
      List.Perm ((l.set i x).set j y) ((l.set i y).set j x)
  | [], i, j, hi, _, _ => by simp at hi
  | c :: t, 0, 0, _, _, hne => absurd rfl hne
  | c :: t, 0, j + 1, _, hj, _ => by
    simpa using perm_cons_set x y t j (by simpa using hj)
  | c :: t, i + 1, 0, hi, _, _ => by
    simpa using perm_cons_set y x t i (by simpa using hi)
  | c :: t, i + 1, j + 1, hi, hj, hne => by
    simp only [List.set_cons_succ]
    exact List.Perm.cons c
      (perm_set_set x y t i j (by simpa using hi) (by simpa using hj)
        (by omega))

theorem siftUpGo_length (cmp : Nat → Nat → Bool) (v : Nat) :
    ∀ (fuel : Nat) (a : List Nat) (hole : Nat),
      (siftUpGo cmp v fuel a hole).length = a.length
  | 0, a, hole => by simp [siftUpGo]
  | fuel + 1, a, hole => by
    rw [siftUpGo]
    by_cases h0 : hole = 0
    · rw [if_pos h0]; simp
    · rw [if_neg h0]
      by_cases hc : cmp (a.getD ((hole - 1) / 2) 0) v
      · rw [if_pos hc, siftUpGo_length cmp v fuel]
        simp
      · rw [if_neg hc]; simp

theorem siftUp_length (cmp : Nat → Nat → Bool) (a : List Nat) (hole : Nat)
    (v : Nat) : (siftUp cmp a hole v).length = a.length :=
  siftUpGo_length cmp v hole a hole

theorem siftUpGo_perm (cmp : Nat → Nat → Bool) (v : Nat) :
    ∀ (fuel : Nat) (a : List Nat) (hole : Nat), hole < a.length →
      List.Perm (siftUpGo cmp v fuel a hole) (a.set hole v)
  | 0, a, hole, _ => by rw [siftUpGo]
  | fuel + 1, a, hole, h => by
    rw [siftUpGo]
    by_cases h0 : hole = 0
    · rw [if_pos h0]; subst h0; exact List.Perm.refl _
    · rw [if_neg h0]
      by_cases hc : cmp (a.getD ((hole - 1) / 2) 0) v
      · rw [if_pos hc]
        have hparlen : (hole - 1) / 2 < a.length := by omega
        have h1 := siftUpGo_perm cmp v fuel
          (a.set hole (a.getD ((hole - 1) / 2) 0)) ((hole - 1) / 2)
          (by simpa using hparlen)
        refine h1.trans ?_
        have h2 := perm_set_set (a.getD ((hole - 1) / 2) 0) v a hole
          ((hole - 1) / 2) h hparlen (by omega)
        refine h2.trans ?_
        have h3 : (a.set hole v).getD ((hole - 1) / 2) 0 =
            a.getD ((hole - 1) / 2) 0 := by
          simp [List.getD_eq_getElem?_getD,
            List.getElem?_set_ne (by omega : hole ≠ (hole - 1) / 2)]
        rw [← h3,
          set_getD_self (a.set hole v) ((hole - 1) / 2) (by simpa using hparlen)]
      · rw [if_neg hc]

theorem siftUp_perm (cmp : Nat → Nat → Bool) (a : List Nat) (hole : Nat)
    (v : Nat) (h : hole < a.length) :
    List.Perm (siftUp cmp a hole v) (a.set hole v) :=
  siftUpGo_perm cmp v hole a hole h

theorem adjustDownGo_spec (cmp : Nat → Nat → Bool) :
    ∀ (fuel : Nat) (a : List Nat) (hole : Nat), hole < a.length →
      (adjustDownGo cmp fuel a hole).2 < (adjustDownGo cmp fuel a hole).1.length ∧
      (adjustDownGo cmp fuel a hole).1.length = a.length ∧
      ∀ v, List.Perm
        ((adjustDownGo cmp fuel a hole).1.set (adjustDownGo cmp fuel a hole).2 v)
        (a.set hole v)
  | 0, a, hole, hhole => by
    rw [adjustDownGo]
    exact ⟨hhole, rfl, fun v => List.Perm.refl _⟩
  | fuel + 1, a, hole, hhole => by
    rw [adjustDownGo]
    by_cases hlt : hole < (a.length - 1) / 2
    · rw [if_pos hlt]
      by_cases hc : cmp (a.getD (2 * (hole + 1)) 0) (a.getD (2 * (hole + 1) - 1) 0)
      · rw [if_pos hc]
        have hsc : 2 * (hole + 1) - 1 < a.length := by omega
        obtain ⟨ih1, ih2, ih3⟩ := adjustDownGo_spec cmp fuel
          (a.set hole (a.getD (2 * (hole + 1) - 1) 0))
          (2 * (hole + 1) - 1) (by simpa using hsc)
        refine ⟨ih1, by simpa using ih2, fun v => ?_⟩
        refine (ih3 v).trans ?_
        have h2 := perm_set_set (a.getD (2 * (hole + 1) - 1) 0) v a hole
          (2 * (hole + 1) - 1) hhole hsc (by omega)
        refine h2.trans ?_
        have h3 : (a.set hole v).getD (2 * (hole + 1) - 1) 0 =
            a.getD (2 * (hole + 1) - 1) 0 := by
          simp [List.getD_eq_getElem?_getD,
            List.getElem?_set_ne (by omega : hole ≠ 2 * (hole + 1) - 1)]
        rw [← h3,
          set_getD_self (a.set hole v) (2 * (hole + 1) - 1) (by simpa using hsc)]
      · rw [if_neg hc]
        have hsc : 2 * (hole + 1) < a.length := by omega
        obtain ⟨ih1, ih2, ih3⟩ := adjustDownGo_spec cmp fuel
          (a.set hole (a.getD (2 * (hole + 1)) 0))
          (2 * (hole + 1)) (by simpa using hsc)
        refine ⟨ih1, by simpa using ih2, fun v => ?_⟩
        refine (ih3 v).trans ?_
        have h2 := perm_set_set (a.getD (2 * (hole + 1)) 0) v a hole
          (2 * (hole + 1)) hhole hsc (by omega)
        refine h2.trans ?_
        have h3 : (a.set hole v).getD (2 * (hole + 1)) 0 =
            a.getD (2 * (hole + 1)) 0 := by
          simp [List.getD_eq_getElem?_getD,
            List.getElem?_set_ne (by omega : hole ≠ 2 * (hole + 1))]
        rw [← h3,
          set_getD_self (a.set hole v) (2 * (hole + 1)) (by simpa using hsc)]
    · rw [if_neg hlt]
      exact ⟨hhole, rfl, fun v => List.Perm.refl _⟩

theorem adjustDown_spec (cmp : Nat → Nat → Bool) (a : List Nat) (hole : Nat)
    (hhole : hole < a.length) :
    (adjustDown cmp a hole).2 < (adjustDown cmp a hole).1.length ∧
    (adjustDown cmp a hole).1.length = a.length ∧
    ∀ v, List.Perm ((adjustDown cmp a hole).1.set (adjustDown cmp a hole).2 v)
      (a.set hole v) :=
  adjustDownGo_spec cmp a.length a hole hhole

theorem adjustHeap_length (cmp : Nat → Nat → Bool) (a : List Nat) (v : Nat)
    (ha : a ≠ []) : (adjustHeap cmp a v).length = a.length := by
  have h0 : 0 < a.length := List.length_pos.mpr ha
  obtain ⟨hh, hlen, _⟩ := adjustDown_spec cmp a 0 h0
  rw [adjustHeap]
  split
  · rw [siftUp_length]; simpa using hlen
  · rw [siftUp_length]; exact hlen

theorem adjustHeap_perm (cmp : Nat → Nat → Bool) (a : List Nat) (v : Nat)
    (ha : a ≠ []) : List.Perm (adjustHeap cmp a v) (a.set 0 v) := by
  have h0 : 0 < a.length := List.length_pos.mpr ha
  obtain ⟨hh, hlen, hperm⟩ := adjustDown_spec cmp a 0 h0
  rw [adjustHeap]
  split
  case isTrue hcond =>
    obtain ⟨heven, hh1⟩ := hcond
    have hne : (adjustDown cmp a 0).2 ≠ 2 * ((adjustDown cmp a 0).2 + 1) - 1 := by
      omega
    have hsc : 2 * ((adjustDown cmp a 0).2 + 1) - 1 <
        (adjustDown cmp a 0).1.length := by
      omega
    have hstep := siftUp_perm cmp
      ((adjustDown cmp a 0).1.set (adjustDown cmp a 0).2
        ((adjustDown cmp a 0).1.getD (2 * ((adjustDown cmp a 0).2 + 1) - 1) 0))
      (2 * ((adjustDown cmp a 0).2 + 1) - 1) v
      (by simpa using hsc)
    refine hstep.trans ?_
    have h2 := perm_set_set
      ((adjustDown cmp a 0).1.getD (2 * ((adjustDown cmp a 0).2 + 1) - 1) 0) v
      (adjustDown cmp a 0).1 (adjustDown cmp a 0).2
      (2 * ((adjustDown cmp a 0).2 + 1) - 1) hh hsc hne
    refine h2.trans ?_
    have h3 : ((adjustDown cmp a 0).1.set (adjustDown cmp a 0).2 v).getD
        (2 * ((adjustDown cmp a 0).2 + 1) - 1) 0 =
        (adjustDown cmp a 0).1.getD (2 * ((adjustDown cmp a 0).2 + 1) - 1) 0 := by
      simp [List.getD_eq_getElem?_getD, List.getElem?_set_ne hne]
    rw [← h3,
      set_getD_self ((adjustDown cmp a 0).1.set (adjustDown cmp a 0).2 v)
        (2 * ((adjustDown cmp a 0).2 + 1) - 1) (by simpa using hsc)]
    exact hperm v
  case isFalse _ =>
    exact (siftUp_perm cmp _ _ v hh).trans (hperm v)

theorem popHeap_spec (cmp : Nat → Nat → Bool) (a : List Nat) (ha : a ≠ []) :
    List.Perm ((popHeap cmp a).1 :: (popHeap cmp a).2) a ∧
    (popHeap cmp a).2.length = a.length - 1 := by
  match a with
  | [x] => simp [popHeap]
  | c :: d :: t2 =>
    have hlen2 : ¬ ((c :: d :: t2).length ≤ 1) := by simp
    have hdl : (c :: d :: t2).dropLast = c :: (d :: t2).dropLast := by simp
    have hdlne : (c :: d :: t2).dropLast ≠ [] := by simp
    have hperm := adjustHeap_perm cmp ((c :: d :: t2).dropLast)
      ((c :: d :: t2).getLastD 0) hdlne
    have hlast : (c :: d :: t2).getLastD 0 =
        (d :: t2).getLast (by simp) := by
      rw [List.getLastD_eq_getLast?,
        List.getLast?_eq_getLast (c :: d :: t2) (by simp)]
      simp [List.getLast_cons]
    constructor
    · simp only [popHeap, List.headD_cons]
      rw [if_neg hlen2]
      refine List.Perm.cons c (hperm.trans ?_)
      rw [hdl, hlast]
      simp only [List.set_cons_zero]
      have h4 : (d :: t2).dropLast ++ [(d :: t2).getLast (by simp)] = d :: t2 :=
        List.dropLast_append_getLast (by simp)
      have h5 := (List.perm_append_singleton ((d :: t2).getLast (by simp))
        ((d :: t2).dropLast)).symm
      rw [h4] at h5
      exact h5
    · simp only [popHeap]
      rw [if_neg hlen2, adjustHeap_length cmp _ _ hdlne]
      simp

theorem heapPopAllFuel_perm (cmp : Nat → Nat → Bool) :
    ∀ (fuel : Nat) (a : List Nat), a.length ≤ fuel →
      List.Perm (heapPopAllFuel cmp fuel a) a
  | 0, a, h => by
    have : a = [] := List.length_eq_zero.mp (by omega)
    simp [this, heapPopAllFuel]
  | fuel + 1, [], _ => by simp [heapPopAllFuel]
  | fuel + 1, c :: t, h => by
    obtain ⟨hp, hl⟩ := popHeap_spec cmp (c :: t) (by simp)
    have hrec := heapPopAllFuel_perm cmp fuel (popHeap cmp (c :: t)).2
      (by rw [hl]; simp only [List.length_cons] at h ⊢; omega)
    simpa [heapPopAllFuel] using (List.Perm.cons _ hrec).trans hp

theorem set_concat_self : ∀ (a : List Nat) (v : Nat),
    (a ++ [v]).set a.length v = a ++ [v]
  | [], _ => rfl
  | c :: t, v => by simp [set_concat_self t v]

theorem heapPush_perm (cmp : Nat → Nat → Bool) (a : List Nat) (v : Nat) :
    List.Perm (heapPush cmp a v) (v :: a) := by
  have h1 := siftUp_perm cmp (a ++ [v]) a.length v (by simp)
  rw [set_concat_self] at h1
  exact h1.trans (List.perm_append_singleton v a)

theorem heapFold_perm (cmp : Nat → Nat → Bool) :
    ∀ (xs a : List Nat), List.Perm (xs.foldl (heapPush cmp) a) (a ++ xs)
  | [], a => by simp
  | x :: xs, a => by
    simp only [List.foldl_cons]
    refine (heapFold_perm cmp xs (heapPush cmp a x)).trans ?_
    have h1 := (heapPush_perm cmp a x).append_right xs
    refine h1.trans ?_
    exact List.perm_middle.symm

theorem heapOrder_perm (cmp : Nat → Nat → Bool) (xs : List Nat) :
    List.Perm (heapOrder cmp xs) xs := by
  have hfold := heapFold_perm cmp xs []
  simp only [List.nil_append] at hfold
  exact (heapPopAllFuel_perm cmp _ _ le_rfl).trans hfold

theorem enqueueOrder_perm (isPart : Bool) (consider : Nat → Bool)
    (p : Nat → Nat) (n : Nat)
    (hall : isPart = false → ∀ i, consider i = true) :
    List.Perm (enqueueOrder isPart consider p n)
      ((List.range n).filter consider) := by
  by_cases hEq : refreshAllEqual consider p n
  · cases isPart with
    | false =>
      have hself : (List.range n).filter consider = List.range n :=
        List.filter_eq_self.mpr (fun i _ => hall rfl i)
      simp [enqueueOrder, hEq, hself]
    | true => simp [enqueueOrder, hEq]
  · have hrw : enqueueOrder isPart consider p n =
        heapOrder (childCmp p) ((List.range n).filter consider) := by
      simp [enqueueOrder, hEq]
    rw [hrw]
    exact heapOrder_perm _ _

/-- C2, code-bug exhibit.  The comparator `p[a] < p[b] || a > b` built in
`InternalOnBuild` omits the equality guard of its own comment ("priority from
large to smaller ... order from small to larger") and is not a strict weak
ordering, so `std::priority_queue` misorders: on a non-stateful priority
composite with four children of priorities (1, 1, 2, 2) — not all equal, so
the heap path is taken — the children are dequeued as 2, 1, 0, 3 (the
libstdc++ heap algorithms embedded in `heapOrder`).  Child 1, of priority 1,
is ticked before child 3, of priority 2, so the pops are not in decreasing
priority order; the claimed order would have been 2, 3, 0, 1. -/
theorem enqueue_heap_misorders_children :
    (enqueueOrder false (fun _ => true) (fun i => [1, 1, 2, 2].getD i 0) 4 =
      [2, 1, 0, 3]) ∧
    ([2, 1, 0, 3].indexOf 1 < [2, 1, 0, 3].indexOf 3 ∧
      [1, 1, 2, 2].getD 1 0 < [1, 1, 2, 2].getD 3 0) ∧
    [2, 1, 0, 3] ≠ [2, 3, 0, 1] := by decide

theorem seqLoop_structure (cs : Nat → Status)
    (onSucc onFail : Nat → List Bool → List Bool) :
    ∀ (q : List Nat) (st : List Bool),
      ∃ pre rest, q = pre ++ rest ∧
        (∀ j ∈ pre, cs j ≠ .running ∧ cs j ≠ .failure) ∧
        ((rest = [] ∧ (seqLoop cs onSucc onFail q st).2.1 = .success ∧
            (seqLoop cs onSucc onFail q st).2.2 = pre.map Ev.childTick) ∨
          (∃ i rest2, rest = i :: rest2 ∧
            (cs i = .running ∨ cs i = .failure) ∧
            (seqLoop cs onSucc onFail q st).2.1 = cs i ∧
            (seqLoop cs onSucc onFail q st).2.2 = (pre ++ [i]).map Ev.childTick))
  | [], st =>
    ⟨[], [], rfl, by simp, Or.inl ⟨rfl, by simp [seqLoop], by simp [seqLoop]⟩⟩
  | i :: t, st => by
    cases hcs : cs i with
    | running =>
      exact ⟨[], i :: t, rfl, by simp,
        Or.inr ⟨i, t, rfl, Or.inl hcs, by simp [seqLoop, hcs],
          by simp [seqLoop, hcs]⟩⟩
    | failure =>
      exact ⟨[], i :: t, rfl, by simp,
        Or.inr ⟨i, t, rfl, Or.inr hcs, by simp [seqLoop, hcs],
          by simp [seqLoop, hcs]⟩⟩
    | success =>
      obtain ⟨pre, rest, hq, hpre, hres⟩ :=
        seqLoop_structure cs onSucc onFail t (onSucc i st)
      refine ⟨i :: pre, rest, by simp [hq], ?_, ?_⟩
      · intro j hj
        rcases List.mem_cons.mp hj with hj | hj
        · subst hj; simp [hcs]
        · exact hpre j hj
      · rcases hres with ⟨h1, h2, h3⟩ | ⟨k, rest2, h1, h2, h3, h4⟩
        · exact Or.inl ⟨h1, by simp [seqLoop, hcs, h2], by simp [seqLoop, hcs, h3]⟩
        · exact Or.inr ⟨k, rest2, h1, h2, by simp [seqLoop, hcs, h3],
            by simp [seqLoop, hcs, h4]⟩
    | undefined =>
      obtain ⟨pre, rest, hq, hpre, hres⟩ :=
        seqLoop_structure cs onSucc onFail t (onSucc i st)
      refine ⟨i :: pre, rest, by simp [hq], ?_, ?_⟩
      · intro j hj
        rcases List.mem_cons.mp hj with hj | hj
        · subst hj; simp [hcs]
        · exact hpre j hj
      · rcases hres with ⟨h1, h2, h3⟩ | ⟨k, rest2, h1, h2, h3, h4⟩
        · exact Or.inl ⟨h1, by simp [seqLoop, hcs, h2], by simp [seqLoop, hcs, h3]⟩
        · exact Or.inr ⟨k, rest2, h1, h2, by simp [seqLoop, hcs, h3],
            by simp [seqLoop, hcs, h4]⟩

/-- C3. One `SequenceNode` tick dequeues children one by one in queue order:
every child before the stopping point is ticked and returned SUCCESS, the
first child returning RUNNING (resp. FAILURE) stops the loop with that status
and later children are not ticked, and the composite returns SUCCESS iff
every dequeued child returned SUCCESS.  The final conjuncts replay the spec's
Sequence[A,B] scenario through the full priority-composite update (A = child
0, B = child 1, default priorities): tick 1 both RUNNING — only A ticked;
tick 2 A SUCCESS, B RUNNING — both ticked, overall RUNNING; tick 3 both
SUCCESS — overall SUCCESS. -/
theorem sequence_tick_semantics (cs : Nat → Status) (q : List Nat)
    (hnu : ∀ i ∈ q, cs i ≠ .undefined) :
    ((seqLoop cs noHook noHook q []).2.1 = .success ↔ ∀ i ∈ q, cs i = .success) ∧
    (∃ pre rest, q = pre ++ rest ∧ (∀ j ∈ pre, cs j = .success) ∧
      ((rest = [] ∧ (seqLoop cs noHook noHook q []).2.1 = .success ∧
          (seqLoop cs noHook noHook q []).2.2 = pre.map Ev.childTick) ∨
        (∃ i rest2, rest = i :: rest2 ∧ (cs i = .running ∨ cs i = .failure) ∧
          (seqLoop cs noHook noHook q []).2.1 = cs i ∧
          (seqLoop cs noHook noHook q []).2.2 = (pre ++ [i]).map Ev.childTick))) ∧
    (seqUpdateF (fun _ => .running) (fun _ => 1) 2 false noHook noHook ⟨1⟩ [] =
      ([], .running, [Ev.childTick 0])) ∧
    (seqUpdateF (fun i => if i = 0 then .success else .running) (fun _ => 1) 2
      false noHook noHook ⟨2⟩ [] =
      ([], .running, [Ev.childTick 0, Ev.childTick 1])) ∧
    (seqUpdateF (fun _ => .success) (fun _ => 1) 2 false noHook noHook ⟨3⟩ [] =
      ([], .success, [Ev.childTick 0, Ev.childTick 1])) := by
  obtain ⟨pre, rest, hq, hpre, hres⟩ := seqLoop_structure cs noHook noHook q []
  have hpres : ∀ j ∈ pre, cs j = .success := by
    intro j hj
    have hjq : j ∈ q := by rw [hq]; exact List.mem_append_left rest hj
    have hju := hnu j hjq
    have hjp := hpre j hj
    cases hcs : cs j <;> simp_all
  refine ⟨?_, ⟨pre, rest, hq, hpres, hres⟩, by decide, by decide, by decide⟩
  constructor
  · intro hsucc i hi
    rcases hres with ⟨hrest, _, _⟩ | ⟨k, rest2, hrest, hk, hst, _⟩
    · subst hrest
      rw [hq, List.append_nil] at hi
      exact hpres i hi
    · rw [hst] at hsucc
      rcases hk with hk | hk <;> rw [hk] at hsucc <;> simp at hsucc
  · intro hall
    rcases hres with ⟨_, hst, _⟩ | ⟨k, rest2, hrest, hk, hst, _⟩
    · exact hst
    · exfalso
      have hkq : k ∈ q := by
        rw [hq, hrest]
        exact List.mem_append_right pre (List.mem_cons_self k rest2)
      have := hall k hkq
      rcases hk with hk | hk <;> rw [this] at hk <;> simp at hk

/-- Witness for C3 with a concrete queue and statuses. -/
theorem sequence_tick_semantics_witness :
    let cs : Nat → Status := fun i => if i = 1 then .failure else .success
    let q := [0, 1, 2]
    ((seqLoop cs noHook noHook q []).2.1 = .success ↔ ∀ i ∈ q, cs i = .success) ∧
    (∃ pre rest, q = pre ++ rest ∧ (∀ j ∈ pre, cs j = .success) ∧
      ((rest = [] ∧ (seqLoop cs noHook noHook q []).2.1 = .success ∧
          (seqLoop cs noHook noHook q []).2.2 = pre.map Ev.childTick) ∨
        (∃ i rest2, rest = i :: rest2 ∧ (cs i = .running ∨ cs i = .failure) ∧
          (seqLoop cs noHook noHook q []).2.1 = cs i ∧
          (seqLoop cs noHook noHook q []).2.2 = (pre ++ [i]).map Ev.childTick))) ∧
    (seqUpdateF (fun _ => .running) (fun _ => 1) 2 false noHook noHook ⟨1⟩ [] =
      ([], .running, [Ev.childTick 0])) ∧
    (seqUpdateF (fun i => if i = 0 then .success else .running) (fun _ => 1) 2
      false noHook noHook ⟨2⟩ [] =
      ([], .running, [Ev.childTick 0, Ev.childTick 1])) ∧
    (seqUpdateF (fun _ => .success) (fun _ => 1) 2 false noHook noHook ⟨3⟩ [] =
      ([], .success, [Ev.childTick 0, Ev.childTick 1])) :=
  sequence_tick_semantics (fun i => if i = 1 then .failure else .success)
    [0, 1, 2] (by decide)

theorem parLoop_spec (cs : Nat → Status)
    (onSucc onFail : Nat → List Bool → List Bool) :
    ∀ (q : List Nat) (st : List Bool),
      (parLoop cs onSucc onFail q st).2.2 = q.map Ev.childTick ∧
      (parLoop cs onSucc onFail q st).2.1 =
        (q.countP (fun i => cs i = .failure),
          q.countP (fun i => cs i = .success), q.length)
  | [], st => by simp [parLoop]
  | i :: t, st => by
    obtain ⟨h1, h2⟩ := parLoop_spec cs onSucc onFail t
      (if cs i = .success then
        onSucc i (if cs i = .failure then onFail i st else st)
      else (if cs i = .failure then onFail i st else st))
    by_cases hf : cs i = .failure <;> by_cases hsu : cs i = .success <;>
      simp_all [parLoop, List.countP_cons]

theorem parVerdict_cases (cf cnts tot : Nat) :
    (parVerdict (cf, cnts, tot) = .success ↔ cnts = tot) ∧
    (parVerdict (cf, cnts, tot) = .failure ↔ cnts ≠ tot ∧ 0 < cf) ∧
    (parVerdict (cf, cnts, tot) = .running ↔ cnts ≠ tot ∧ cf = 0) := by
  unfold parVerdict
  by_cases h1 : cnts = tot <;> by_cases h2 : cf > 0 <;>
    simp [h1, h2] <;> omega

/-- C4. One `ParallelNode` tick dequeues every considerable child exactly
once (for the plain parallel node: all `n` children, in some order — a
permutation of `0..n-1`), with no short-circuit; the composite returns
SUCCESS iff all ticked children returned SUCCESS, else FAILURE iff at least
one ticked child returned FAILURE (even while others are RUNNING), and
RUNNING otherwise. -/
theorem parallel_tick_semantics (cs : Nat → Status) (p : Nat → Nat) (n : Nat)
    (ctx : Ctx) :
    List.Perm (parUpdateF cs p n false noHook noHook ctx []).2.2
      ((List.range n).map Ev.childTick) ∧
    ((parUpdateF cs p n false noHook noHook ctx []).2.1 = .success ↔
      ∀ i < n, cs i = .success) ∧
    ((parUpdateF cs p n false noHook noHook ctx []).2.1 = .failure ↔
      (¬ ∀ i < n, cs i = .success) ∧ ∃ i < n, cs i = .failure) ∧
    ((parUpdateF cs p n false noHook noHook ctx []).2.1 = .running ↔
      (¬ ∀ i < n, cs i = .success) ∧ ∀ i < n, cs i ≠ .failure) := by
  have hall : (false : Bool) = false → ∀ i, considerOf false [] i = true :=
    fun _ i => rfl
  have hop := enqueueOrder_perm false (considerOf false []) p n hall
  have hfself : (List.range n).filter (considerOf false []) = List.range n :=
    List.filter_eq_self.mpr (fun i _ => rfl)
  rw [hfself] at hop
  obtain ⟨h1, h2⟩ := parLoop_spec cs noHook noHook
    (enqueueOrder false (considerOf false []) p n) []
  have hsplit : parUpdateF cs p n false noHook noHook ctx [] =
      ((parLoop cs noHook noHook
          (enqueueOrder false (considerOf false []) p n) []).1,
        parVerdict (parLoop cs noHook noHook
          (enqueueOrder false (considerOf false []) p n) []).2.1,
        (parLoop cs noHook noHook
          (enqueueOrder false (considerOf false []) p n) []).2.2) := rfl
  rw [hsplit]
  have hmem : ∀ i, (i ∈ enqueueOrder false (considerOf false []) p n ↔ i < n) := by
    intro i
    rw [hop.mem_iff, List.mem_range]
  have hsucc : ((enqueueOrder false (considerOf false []) p n).countP
        (fun i => cs i = .success) =
      (enqueueOrder false (considerOf false []) p n).length ↔
      ∀ i < n, cs i = .success) := by
    rw [List.countP_eq_length]
    constructor
    · intro h i hi
      simpa using h i ((hmem i).mpr hi)
    · intro h i hi
      simpa using h i ((hmem i).mp hi)
  have hfail : (0 < (enqueueOrder false (considerOf false []) p n).countP
        (fun i => cs i = .failure) ↔ ∃ i < n, cs i = .failure) := by
    rw [List.countP_pos_iff]
    constructor
    · rintro ⟨i, hi, hf⟩
      exact ⟨i, (hmem i).mp hi, by simpa using hf⟩
    · rintro ⟨i, hi, hf⟩
      exact ⟨i, (hmem i).mpr hi, by simpa using hf⟩
  refine ⟨?_, ?_⟩
  · show List.Perm (parLoop cs noHook noHook
      (enqueueOrder false (considerOf false []) p n) []).2.2 _
    rw [h1]
    exact hop.map Ev.childTick
  · show ((parVerdict (parLoop cs noHook noHook
        (enqueueOrder false (considerOf false []) p n) []).2.1 = .success ↔ _) ∧ _)
    rw [h2]
    obtain ⟨hv1, hv2, hv3⟩ := parVerdict_cases
      ((enqueueOrder false (considerOf false []) p n).countP
        (fun i => cs i = .failure))
      ((enqueueOrder false (considerOf false []) p n).countP
        (fun i => cs i = .success))
      ((enqueueOrder false (considerOf false []) p n).length)
    refine ⟨hv1.trans hsucc, hv2.trans ?_, hv3.trans ?_⟩
    · exact and_congr (not_congr hsucc) hfail
    · refine and_congr (not_congr hsucc) ?_
      constructor
      · intro h0 i hi hf
        have hpos := hfail.mpr ⟨i, hi, hf⟩
        omega
      · intro hno
        by_contra hpos
        rcases hfail.mp (Nat.pos_of_ne_zero hpos) with ⟨i, hi, hf⟩
        exact hno i hi hf

/-- Witness for C4 at a concrete instance: three children, one failing while
another runs. -/
theorem parallel_tick_semantics_witness :
    let cs : Nat → Status := fun i => if i = 0 then .running else .failure
    let r := parUpdateF cs (fun _ => 1) 3 false noHook noHook ⟨4⟩ []
    List.Perm r.2.2 ((List.range 3).map Ev.childTick) ∧
    (r.2.1 = .success ↔ ∀ i < 3, cs i = .success) ∧
    (r.2.1 = .failure ↔
      (¬ ∀ i < 3, cs i = .success) ∧ ∃ i < 3, cs i = .failure) ∧
    (r.2.1 = .running ↔
      (¬ ∀ i < 3, cs i = .success) ∧ ∀ i < 3, cs i ≠ .failure) := by
  exact parallel_tick_semantics (fun i => if i = 0 then .running else .failure)
    (fun _ => 1) 3 ⟨4⟩

/-- C5, code-bug exhibit.  For the plain `RandomSelectorNode` (no skip set),
`OnChildFailure` is the no-op default and `Considerable` stays true, so after
a child fails only `total` shrinks while the `select` cumulative-sum mapping
still includes the failed child's weight — contradicting the code's own
comments ("it shouldn't be considered any more in this tick", "won't be
consider again").  With two children of priorities (2, 1), child 0 always
failing, and a random stream drawing the minimum: draw v = 1 selects child 0,
which fails; `total` becomes 3 - 2 = 1, the fresh draw over [1, 1] yields
v = 1, and the scan maps v = 1 ≤ 2 to child 0 again — the failed child is
re-selected and re-ticked, and child 1 (cumulative range (2, 3]) has become
unreachable.  (A further failure would wrap `total` to 2^32 - 1.) -/
theorem randomSelector_reselects_failed_child :
    (randomSelectorUpdate (fun _ => .failure) (fun i => [2, 1].getD i 0)
        2 false noHook 2 [0, 0] []).2.2 =
      [Ev.childTick 0, Ev.childTick 0] ∧
    ((randomSelectorUpdate (fun _ => .failure) (fun i => [2, 1].getD i 0)
        2 false noHook 2 [0, 0] []).2.2.count (Ev.childTick 0) = 2) := by
  constructor <;> rfl

/-!  Toolbox for the stateful skip discipline (C6). -/

theorem getD_map_false : ∀ (l : List Bool) (j : Nat),
    (l.map (fun _ => false)).getD j false = false
  | [], j => by simp
  | _ :: t, 0 => by simp
  | _ :: t, j + 1 => getD_map_false t j

theorem getD_set_bool : ∀ (st : List Bool) (j i : Nat) (v d : Bool),
    (st.set j v).getD i d = if j = i ∧ j < st.length then v else st.getD i d
  | [], j, i, v, d => by simp
  | b :: t, 0, 0, v, d => by simp
  | b :: t, 0, i + 1, v, d => by simp
  | b :: t, j + 1, 0, v, d => by simp
  | b :: t, j + 1, i + 1, v, d => by
    have hrec := getD_set_bool t j i v d
    simp only [List.set_cons_succ, List.getD_cons_succ, List.length_cons]
    rw [hrec]
    by_cases h : j = i ∧ j < t.length
    · rw [if_pos h, if_pos (show j + 1 = i + 1 ∧ j + 1 < t.length + 1 by omega)]
    · rw [if_neg h,
        if_neg (show ¬(j + 1 = i + 1 ∧ j + 1 < t.length + 1) by omega)]

theorem skipHook_preserves (i : Nat) :
    ∀ (j : Nat) (st : List Bool),
      (st.length = st.length ∧ st.getD i false = true) →
      ((skipHook j st).length = st.length ∧
        (skipHook j st).getD i false = true) := by
  intro j st ⟨_, hm⟩
  refine ⟨by simp [skipHook], ?_⟩
  show (st.set j true).getD i false = true
  rw [getD_set_bool]
  split
  · rfl
  · exact hm

theorem seqLoop_state_invariant (cs : Nat → Status)
    (oS oF : Nat → List Bool → List Bool) (P : List Bool → Prop)
    (hS : ∀ j st, P st → P (oS j st)) (hF : ∀ j st, P st → P (oF j st)) :
    ∀ (q : List Nat) (st : List Bool), P st →
      P ((seqLoop cs oS oF q st).1)
  | [], st, h => by simpa [seqLoop] using h
  | i :: t, st, h => by
    cases hcs : cs i with
    | running => simpa [seqLoop, hcs] using h
    | failure => simpa [seqLoop, hcs] using hF i st h
    | success =>
      simpa [seqLoop, hcs] using
        seqLoop_state_invariant cs oS oF P hS hF t (oS i st) (hS i st h)
    | undefined =>
      simpa [seqLoop, hcs] using
        seqLoop_state_invariant cs oS oF P hS hF t (oS i st) (hS i st h)

theorem selLoop_state_invariant (cs : Nat → Status)
    (oS oF : Nat → List Bool → List Bool) (P : List Bool → Prop)
    (hS : ∀ j st, P st → P (oS j st)) (hF : ∀ j st, P st → P (oF j st)) :
    ∀ (q : List Nat) (st : List Bool), P st →
      P ((selLoop cs oS oF q st).1)
  | [], st, h => by simpa [selLoop] using h
  | i :: t, st, h => by
    cases hcs : cs i with
    | running => simpa [selLoop, hcs] using h
    | success => simpa [selLoop, hcs] using hS i st h
    | failure =>
      simpa [selLoop, hcs] using
        selLoop_state_invariant cs oS oF P hS hF t (oF i st) (hF i st h)
    | undefined =>
      simpa [selLoop, hcs] using
        selLoop_state_invariant cs oS oF P hS hF t (oF i st) (hF i st h)

theorem parLoop_state_invariant (cs : Nat → Status)
    (oS oF : Nat → List Bool → List Bool) (P : List Bool → Prop)
    (hS : ∀ j st, P st → P (oS j st)) (hF : ∀ j st, P st → P (oF j st)) :
    ∀ (q : List Nat) (st : List Bool), P st →
      P ((parLoop cs oS oF q st).1)
  | [], st, h => by simpa [parLoop] using h
  | i :: t, st, h => by
    have h1 : P (if cs i = .failure then oF i st else st) := by
      split
      · exact hF i st h
      · exact h
    have h2 : P (if cs i = .success then
        oS i (if cs i = .failure then oF i st else st)
      else (if cs i = .failure then oF i st else st)) := by
      split
      · exact hS i _ h1
      · exact h1
    simpa [parLoop] using parLoop_state_invariant cs oS oF P hS hF t _ h2

theorem seqLoop_evs_sub (cs : Nat → Status)
    (oS oF : Nat → List Bool → List Bool) :
    ∀ (q : List Nat) (st : List Bool) (i : Nat),
      Ev.childTick i ∈ (seqLoop cs oS oF q st).2.2 → i ∈ q
  | [], st, i, h => by simp [seqLoop] at h
  | k :: t, st, i, h => by
    cases hcs : cs k with
    | running =>
      simp [seqLoop, hcs] at h
      simp [h]
    | failure =>
      simp [seqLoop, hcs] at h
      simp [h]
    | success =>
      simp only [seqLoop, hcs, List.mem_cons] at h
      rcases h with h | h
      · simp at h; simp [h]
      · exact List.mem_cons_of_mem k (seqLoop_evs_sub cs oS oF t (oS k st) i h)
    | undefined =>
      simp only [seqLoop, hcs, List.mem_cons] at h
      rcases h with h | h
      · simp at h; simp [h]
      · exact List.mem_cons_of_mem k (seqLoop_evs_sub cs oS oF t (oS k st) i h)

theorem selLoop_evs_sub (cs : Nat → Status)
    (oS oF : Nat → List Bool → List Bool) :
    ∀ (q : List Nat) (st : List Bool) (i : Nat),
      Ev.childTick i ∈ (selLoop cs oS oF q st).2.2 → i ∈ q
  | [], st, i, h => by simp [selLoop] at h
  | k :: t, st, i, h => by
    cases hcs : cs k with
    | running =>
      simp [selLoop, hcs] at h
      simp [h]
    | success =>
      simp [selLoop, hcs] at h
      simp [h]
    | failure =>
      simp only [selLoop, hcs, List.mem_cons] at h
      rcases h with h | h
      · simp at h; simp [h]
      · exact List.mem_cons_of_mem k (selLoop_evs_sub cs oS oF t (oF k st) i h)
    | undefined =>
      simp only [selLoop, hcs, List.mem_cons] at h
      rcases h with h | h
      · simp at h; simp [h]
      · exact List.mem_cons_of_mem k (selLoop_evs_sub cs oS oF t (oF k st) i h)

theorem parLoop_evs_sub (cs : Nat → Status)
    (oS oF : Nat → List Bool → List Bool) (q : List Nat) (st : List Bool)
    (i : Nat) (h : Ev.childTick i ∈ (parLoop cs oS oF q st).2.2) : i ∈ q := by
  obtain ⟨h1, _⟩ := parLoop_spec cs oS oF q st
  rw [h1] at h
  rcases List.mem_map.mp h with ⟨j, hj, hje⟩
  cases hje
  exact hj

/-- A child marked in the skip set is not in the dequeue order of a stateful
composite: it is not considerable, hence not enqueued. -/
theorem order_not_mem_skipped (st : List Bool) (p : Nat → Nat) (n i : Nat)
    (hmark : st.getD i false = true) :
    i ∉ enqueueOrder true (considerOf true st) p n := by
  intro hmem
  have hop := enqueueOrder_perm true (considerOf true st) p n
    (fun h => by simp at h)
  have hmem2 := hop.mem_iff.mp hmem
  have h3 : considerOf true st i = true := (List.mem_filter.mp hmem2).2
  have h4 : (!(st.getD i false)) = true := h3
  rw [hmark] at h4
  simp at h4

/-- The `Node::Tick` wrapper of a stateful composite: if the inner `Update`
never ticks child `i` and preserves its mark (given the mark), then the full
tick satisfies the single-tick skip discipline, the skip set is cleared on a
terminal tick by `OnTerminate`, and the set stays well-sized. -/
theorem statefulTick_skip_invariant
    (updF : Ctx → List Bool → List Bool × Status × List Ev) (i n : Nat)
    (hlen : ∀ ctx st, st.length = n → (updF ctx st).1.length = n)
    (hupd : ∀ ctx st, st.length = n → st.getD i false = true →
      Ev.childTick i ∉ (updF ctx st).2.2 ∧
      (updF ctx st).1.getD i false = true)
    (ctx : Ctx) (b : NodeBlob) (st : List Bool) (hsz : st.length = n)
    (hmark : st.getD i false = true) :
    (nodeTick 0 (fun _ s => s) updF statefulTerm ctx b st).state.length = n ∧
    Ev.childTick i ∉ (nodeTick 0 (fun _ s => s) updF statefulTerm ctx b st).evs ∧
    ((nodeTick 0 (fun _ s => s) updF statefulTerm ctx b st).status ≠ .success ∧
      (nodeTick 0 (fun _ s => s) updF statefulTerm ctx b st).status ≠ .failure →
      (nodeTick 0 (fun _ s => s) updF statefulTerm ctx b st).state.getD i false
        = true) ∧
    (((nodeTick 0 (fun _ s => s) updF statefulTerm ctx b st).status = .success ∨
      (nodeTick 0 (fun _ s => s) updF statefulTerm ctx b st).status = .failure) →
      ∀ j, (nodeTick 0 (fun _ s => s) updF statefulTerm ctx b st).state.getD j
        false = false) := by
  obtain ⟨hnotick, hmark2⟩ := hupd ctx st hsz hmark
  have hlen2 := hlen ctx st hsz
  rcases hu : updF ctx st with ⟨st2, status, uevs⟩
  rw [hu] at hnotick hmark2 hlen2
  simp only at hnotick hmark2 hlen2
  by_cases hterm : status = .failure ∨ status = .success
  · have hres : nodeTick 0 (fun _ s => s) updF statefulTerm ctx b st =
        ⟨{ b with running := false, lastStatus := status, lastSeq := ctx.seq },
          statefulTerm ctx status st2, status,
          (if b.running = false then [Ev.enter 0] else []) ++
            Ev.updateRun 0 :: uevs ++ [Ev.terminate 0 status]⟩ := by
      simp [nodeTick, hu, hterm]
    rw [hres]
    refine ⟨by simp [statefulTerm, hlen2], ?_, ?_, ?_⟩
    · intro hin
      rcases List.mem_append.mp hin with hin | hin
      · rcases List.mem_append.mp hin with hin | hin
        · split at hin <;> simp at hin
        · rcases List.mem_cons.mp hin with hin | hin
          · exact Ev.noConfusion hin
          · exact hnotick hin
      · simp at hin
    · intro hne
      rcases hterm with h | h
      · exact absurd h hne.2
      · exact absurd h hne.1
    · intro _ j
      exact getD_map_false st2 j
  · have hres : nodeTick 0 (fun _ s => s) updF statefulTerm ctx b st =
        ⟨{ b with running := true, lastStatus := status, lastSeq := ctx.seq },
          st2, status,
          (if b.running = false then [Ev.enter 0] else []) ++
            Ev.updateRun 0 :: uevs⟩ := by
      simp [nodeTick, hu, hterm]
    rw [hres]
    refine ⟨hlen2, ?_, fun _ => hmark2, ?_⟩
    · intro hin
      rcases List.mem_append.mp hin with hin | hin
      · split at hin <;> simp at hin
      · rcases List.mem_cons.mp hin with hin | hin
        · exact Ev.noConfusion hin
        · exact hnotick hin
    · intro hcontra
      rcases hcontra with h | h
      · exact (hterm (Or.inr h)).elim
      · exact (hterm (Or.inl h)).elim

theorem sum_filter_le (p : Nat → Nat) (c : Nat → Bool) (l : List Nat) :
    ((l.filter c).map p).sum ≤ (l.map p).sum :=
  List.Sublist.sum_le_sum ((List.filter_sublist l).map p)
    (fun a _ => Nat.zero_le a)

theorem rsTotal_fold_eq (c : Nat → Bool) (p : Nat → Nat) :
    ∀ (l : List Nat) (t : Nat), t + ((l.filter c).map p).sum < u32 →
      l.foldl (fun t i => if c i then (t + p i) % u32 else t) t =
        t + ((l.filter c).map p).sum
  | [], t, _ => by simp
  | i :: l2, t, h => by
    by_cases hc : c i
    · have hsum : (((i :: l2).filter c).map p).sum =
          p i + ((l2.filter c).map p).sum := by
        simp [List.filter_cons, hc]
      rw [hsum] at h
      have hmod : (t + p i) % u32 = t + p i := Nat.mod_eq_of_lt (by omega)
      rw [List.foldl_cons, hsum]
      simp only [hc, if_true, hmod]
      rw [rsTotal_fold_eq c p l2 (t + p i) (by omega)]
      omega
    · have hsum : (((i :: l2).filter c).map p).sum =
          ((l2.filter c).map p).sum := by
        simp [List.filter_cons, hc]
      rw [hsum] at h
      rw [List.foldl_cons, hsum]
      simp only [hc, if_false]
      exact rsTotal_fold_eq c p l2 t h

theorem rsTotal_eq_sum (c : Nat → Bool) (p : Nat → Nat) (n : Nat)
    (h : (((List.range n).filter c).map p).sum < u32) :
    rsTotal c p n = (((List.range n).filter c).map p).sum := by
  have := rsTotal_fold_eq c p (List.range n) 0 (by omega)
  simpa [rsTotal] using this

theorem selectChildAux_mem (c : Nat → Bool) (p : Nat → Nat) :
    ∀ (l : List Nat) (s v : Nat), s < v →
      v ≤ s + ((l.filter c).map p).sum →
      s + ((l.filter c).map p).sum < u32 →
      selectChildAux c p v l s ∈ l ∧ c (selectChildAux c p v l s) = true
  | [], s, v, h1, h2, _ => by simp at h2; omega
  | i :: l2, s, v, h1, h2, h3 => by
    by_cases hc : c i
    · have hsum : (((i :: l2).filter c).map p).sum =
          p i + ((l2.filter c).map p).sum := by
        simp [List.filter_cons, hc]
      rw [hsum] at h2 h3
      have hmod : (s + p i) % u32 = s + p i := Nat.mod_eq_of_lt (by omega)
      by_cases hv : v ≤ (s + p i) % u32
      · have hres : selectChildAux c p v (i :: l2) s = i := by
          simp only [selectChildAux, hc, if_true, hv]
        rw [hres]
        exact ⟨List.mem_cons_self i l2, hc⟩
      · have hres : selectChildAux c p v (i :: l2) s =
            selectChildAux c p v l2 ((s + p i) % u32) := by
          simp only [selectChildAux, hc, if_true, hv, if_false]
        rw [hmod] at hv
        have hrec := selectChildAux_mem c p l2 (s + p i) v
          (by omega) (by omega) (by omega)
        rw [hres, hmod]
        exact ⟨List.mem_cons_of_mem i hrec.1, hrec.2⟩
    · have hsum : (((i :: l2).filter c).map p).sum =
          ((l2.filter c).map p).sum := by
        simp [List.filter_cons, hc]
      rw [hsum] at h2 h3
      have hrec := selectChildAux_mem c p l2 s v h1 h2 h3
      have hres : selectChildAux c p v (i :: l2) s =
          selectChildAux c p v l2 s := by
        simp [selectChildAux, hc]
      rw [hres]
      exact ⟨List.mem_cons_of_mem i hrec.1, hrec.2⟩

theorem sum_filter_erase (p : Nat → Nat) :
    ∀ (l : List Nat) (c c2 : Nat → Bool) (i0 : Nat), l.Nodup →
      c i0 = true → c2 i0 = false → (∀ j, j ≠ i0 → c2 j = c j) → i0 ∈ l →
      ((l.filter c2).map p).sum + p i0 = ((l.filter c).map p).sum
  | [], _, _, _, _, _, _, _, hmem => by simp at hmem
  | a :: l2, c, c2, i0, hnd, hc, hc2, hagree, hmem => by
    by_cases ha : a = i0
    · subst ha
      have hnotin : a ∉ l2 := (List.nodup_cons.mp hnd).1
      have hfeq : l2.filter c2 = l2.filter c :=
        List.filter_congr
          (fun j hj => by rw [hagree j (fun h => hnotin (h ▸ hj))])
      simp [List.filter_cons, hc, hc2, hfeq]
      omega
    · have hmem2 : i0 ∈ l2 := by
        rcases List.mem_cons.mp hmem with h | h
        · exact absurd h.symm ha
        · exact h
      have hrec := sum_filter_erase p l2 c c2 i0 (List.nodup_cons.mp hnd).2
        hc hc2 hagree hmem2
      by_cases hca : c a
      · have hc2a : c2 a = true := by rw [hagree a ha]; exact hca
        simp [List.filter_cons, hca, hc2a]
        omega
      · have hcaf : c a = false := by
          cases hcab : c a
          · rfl
          · exact absurd hcab hca
        have hc2a : c2 a = false := by rw [hagree a ha]; exact hcaf
        simp [List.filter_cons, hcaf, hc2a]
        omega

theorem rsLoop_skip_invariant (cs : Nat → Status) (p : Nat → Nat) (n i : Nat)
    (hbound : ((List.range n).map p).sum < u32) :
    ∀ (fuel total : Nat) (us : List Nat) (st : List Bool),
      st.length = n → st.getD i false = true →
      total = (((List.range n).filter (considerOf true st)).map p).sum →
      (rsLoop cs p n skipHook true fuel total us st).1.length = n ∧
      Ev.childTick i ∉ (rsLoop cs p n skipHook true fuel total us st).2.2 ∧
      (rsLoop cs p n skipHook true fuel total us st).1.getD i false = true
  | 0, total, us, st, hsz, hm, ht => by
    rw [rsLoop]
    exact ⟨hsz, by simp, hm⟩
  | fuel + 1, total, us, st, hsz, hm, ht => by
    by_cases h0 : total = 0
    · simp only [rsLoop, if_pos h0]
      exact ⟨hsz, by simp, hm⟩
    · have hsumlt : (((List.range n).filter (considerOf true st)).map p).sum
          < u32 := lt_of_le_of_lt (sum_filter_le p _ _) hbound
      have hv2 : 1 + us.headD 0 % total ≤ total := by
        have := Nat.mod_lt (us.headD 0) (Nat.pos_of_ne_zero h0)
        omega
      obtain ⟨hselmem, hselc⟩ := selectChildAux_mem (considerOf true st) p
        (List.range n) 0 (1 + us.headD 0 % total) (by omega) (by omega)
        (by omega)
      have hseln : selectChild (considerOf true st) p n
          (1 + us.headD 0 % total) ∈ List.range n := hselmem
      have hi0n : selectChild (considerOf true st) p n
          (1 + us.headD 0 % total) < n := List.mem_range.mp hseln
      have hne : selectChild (considerOf true st) p n
          (1 + us.headD 0 % total) ≠ i := by
        intro h
        have hcontra : (!(st.getD i false)) = true := h ▸ hselc
        rw [hm] at hcontra
        simp at hcontra
      -- facts for the failure path
      have hsz2 : (skipHook (selectChild (considerOf true st) p n
          (1 + us.headD 0 % total)) st).length = n := by
        simp [skipHook, hsz]
      have hm2 : (skipHook (selectChild (considerOf true st) p n
          (1 + us.headD 0 % total)) st).getD i false = true := by
        show ((st.set _ true).getD i false) = true
        rw [getD_set_bool]
        split
        case isTrue h => exact absurd h.1 hne
        case isFalse _ => exact hm
      have hc2i0 : considerOf true (skipHook (selectChild (considerOf true st)
          p n (1 + us.headD 0 % total)) st) (selectChild (considerOf true st)
          p n (1 + us.headD 0 % total)) = false := by
        show (!((st.set _ true).getD _ false)) = false
        rw [getD_set_bool, if_pos ⟨rfl, by omega⟩]
        rfl
      have hagree : ∀ j, j ≠ selectChild (considerOf true st) p n
          (1 + us.headD 0 % total) →
          considerOf true (skipHook (selectChild (considerOf true st) p n
            (1 + us.headD 0 % total)) st) j = considerOf true st j := by
        intro j hj
        show (!((st.set _ true).getD j false)) = (!(st.getD j false))
        rw [getD_set_bool, if_neg (fun hcon => hj hcon.1.symm)]
      have herase := sum_filter_erase p (List.range n) (considerOf true st)
        (considerOf true (skipHook (selectChild (considerOf true st) p n
          (1 + us.headD 0 % total)) st))
        (selectChild (considerOf true st) p n (1 + us.headD 0 % total))
        (List.nodup_range n) hselc hc2i0 hagree hseln
      have hple : p (selectChild (considerOf true st) p n
          (1 + us.headD 0 % total)) ≤ total := by omega
      have htot2 : (total + (u32 - p (selectChild (considerOf true st) p n
            (1 + us.headD 0 % total)) % u32)) % u32 =
          (((List.range n).filter (considerOf true (skipHook (selectChild
            (considerOf true st) p n (1 + us.headD 0 % total)) st))).map
            p).sum := by
        have h1 : total < u32 := by omega
        simp only [u32] at h1 hple ⊢
        omega
      have hrec := rsLoop_skip_invariant cs p n i hbound fuel
        ((total + (u32 - p (selectChild (considerOf true st) p n
          (1 + us.headD 0 % total)) % u32)) % u32) us.tail
        (skipHook (selectChild (considerOf true st) p n
          (1 + us.headD 0 % total)) st) hsz2 hm2 htot2
      cases hcs : cs (selectChild (considerOf true st) p n
          (1 + us.headD 0 % total)) with
      | running =>
        simp only [rsLoop, if_neg h0, hcs]
        refine ⟨hsz, ?_, hm⟩
        intro hmemx
        rw [List.mem_singleton] at hmemx
        injection hmemx with hix
        exact hne hix.symm
      | success =>
        simp only [rsLoop, if_neg h0, hcs]
        refine ⟨hsz, ?_, hm⟩
        intro hmemx
        rw [List.mem_singleton] at hmemx
        injection hmemx with hix
        exact hne hix.symm
      | failure =>
        simp only [rsLoop, if_neg h0, hcs]
        refine ⟨hrec.1, ?_, hrec.2.2⟩
        intro hmem
        rcases List.mem_cons.mp hmem with hmem | hmem
        · injection hmem with h
          exact hne h.symm
        · exact hrec.2.1 hmem
      | undefined =>
        simp only [rsLoop, if_neg h0, hcs]
        refine ⟨hrec.1, ?_, hrec.2.2⟩
        intro hmem
        rcases List.mem_cons.mp hmem with hmem | hmem
        · injection hmem with h
          exact hne h.symm
        · exact hrec.2.1 hmem

/-- Iterating any tick function with the single-tick skip discipline: while
every tick returns RUNNING, a marked child is never ticked and stays
marked. -/
theorem skipInvariant_never_ticks {ι : Type} (n : Nat) (Pre : ι → Prop)
    (F : ι → (NodeBlob × List Bool) →
      Option ((NodeBlob × List Bool) × Status × List Ev))
    (hinv : SkipInvariant n Pre F) : NeverTicksSkipped n Pre F := by
  intro xs
  induction xs with
  | nil =>
    intro s i _ _ hmark _
    exact ⟨by simp [runTicks], hmark⟩
  | cons x xs ih =>
    intro s i hpre hsz hmark hrun
    rcases hF : F x s with _ | r
    · rw [runTicks, hF] at hrun ⊢
      exact ⟨by simp, hmark⟩
    · have hr := hinv x (hpre x (List.mem_cons_self x xs)) s i hsz hmark r hF
      rcases r with ⟨s2, status, evs⟩
      obtain ⟨hlen2, hnotick, hkeep, _⟩ := hr
      have hstat : status = .running := by
        have := hrun (status, evs)
        rw [runTicks, hF] at this
        exact this (by simp)
      have hmark2 : s2.2.getD i false = true := by
        apply hkeep
        rw [hstat]
        exact ⟨by simp, by simp⟩
      have hrun2 : ∀ out ∈ (runTicks F xs s2).1, out.1 = .running := by
        intro out hout
        apply hrun out
        rw [runTicks, hF]
        simp only [List.mem_cons]
        exact Or.inr hout
      obtain ⟨ih1, ih2⟩ := ih s2 i
        (fun y hy => hpre y (List.mem_cons_of_mem x hy)) hlen2 hmark2 hrun2
      constructor
      · intro out hout
        rw [runTicks, hF] at hout
        rcases List.mem_cons.mp hout with hout | hout
        · subst hout
          exact hnotick
        · exact ih1 out hout
      · rw [runTicks, hF]
        exact ih2

theorem skipHook_keeps_mark (i : Nat) : ∀ (j : Nat) (st : List Bool),
    st.getD i false = true → (skipHook j st).getD i false = true := by
  intro j st h
  show (st.set j true).getD i false = true
  rw [getD_set_bool]
  split
  · rfl
  · exact h

theorem rsLoop_length (cs : Nat → Status) (p : Nat → Nat) (n : Nat)
    (onFail : Nat → List Bool → List Bool) (isPart : Bool)
    (hf : ∀ j st, (onFail j st).length = st.length) :
    ∀ (fuel total : Nat) (us : List Nat) (st : List Bool),
      (rsLoop cs p n onFail isPart fuel total us st).1.length = st.length
  | 0, total, us, st => by rw [rsLoop]
  | fuel + 1, total, us, st => by
    by_cases h0 : total = 0
    · simp only [rsLoop, if_pos h0]
    · cases hcs : cs (selectChild (considerOf isPart st) p n
          (1 + us.headD 0 % total)) with
      | running => simp only [rsLoop, if_neg h0, hcs]
      | success => simp only [rsLoop, if_neg h0, hcs]
      | failure =>
        simp only [rsLoop, if_neg h0, hcs]
        rw [rsLoop_length cs p n onFail isPart hf fuel _ _ _, hf]
      | undefined =>
        simp only [rsLoop, if_neg h0, hcs]
        rw [rsLoop_length cs p n onFail isPart hf fuel _ _ _, hf]

theorem seqTickF_skipInvariant (n : Nat) :
    SkipInvariant n (fun _ => True) (seqTickF n) := by
  intro x _ s i hsz hmark r hr
  have hr2 : r = (((statefulSequenceTick x.1 x.2.1 n x.2.2 s.1 s.2).blob,
      (statefulSequenceTick x.1 x.2.1 n x.2.2 s.1 s.2).state),
      (statefulSequenceTick x.1 x.2.1 n x.2.2 s.1 s.2).status,
      (statefulSequenceTick x.1 x.2.1 n x.2.2 s.1 s.2).evs) := by
    have : seqTickF n x s = some r := hr
    rw [seqTickF] at this
    exact (Option.some_inj.mp this).symm
  subst hr2
  have hgen := statefulTick_skip_invariant
    (seqUpdateF x.1 x.2.1 n true skipHook noHook) i n
    (fun ctx st hstn => by
      show (seqLoop x.1 skipHook noHook
        (enqueueOrder true (considerOf true st) x.2.1 n) st).1.length = n
      rw [seqLoop_state_invariant x.1 skipHook noHook
        (fun t => t.length = st.length)
        (fun j t h => by simpa [skipHook] using h)
        (fun j t h => h) _ st rfl]
      exact hstn)
    (fun ctx st hstn hstm => by
      constructor
      · intro hmem
        exact order_not_mem_skipped st x.2.1 n i hstm
          (seqLoop_evs_sub x.1 skipHook noHook _ st i hmem)
      · exact seqLoop_state_invariant x.1 skipHook noHook
          (fun t => t.getD i false = true) (skipHook_keeps_mark i)
          (fun j t h => h) _ st hstm)
    x.2.2 s.1 s.2 hsz hmark
  exact hgen

theorem selTickF_skipInvariant (n : Nat) :
    SkipInvariant n (fun _ => True) (selTickF n) := by
  intro x _ s i hsz hmark r hr
  have hr2 : r = (((statefulSelectorTick x.1 x.2.1 n x.2.2 s.1 s.2).blob,
      (statefulSelectorTick x.1 x.2.1 n x.2.2 s.1 s.2).state),
      (statefulSelectorTick x.1 x.2.1 n x.2.2 s.1 s.2).status,
      (statefulSelectorTick x.1 x.2.1 n x.2.2 s.1 s.2).evs) := by
    have : selTickF n x s = some r := hr
    rw [selTickF] at this
    exact (Option.some_inj.mp this).symm
  subst hr2
  exact statefulTick_skip_invariant
    (selUpdateF x.1 x.2.1 n true noHook skipHook) i n
    (fun ctx st hstn => by
      show (selLoop x.1 noHook skipHook
        (enqueueOrder true (considerOf true st) x.2.1 n) st).1.length = n
      rw [selLoop_state_invariant x.1 noHook skipHook
        (fun t => t.length = st.length) (fun j t h => h)
        (fun j t h => by simpa [skipHook] using h) _ st rfl]
      exact hstn)
    (fun ctx st hstn hstm => by
      constructor
      · intro hmem
        exact order_not_mem_skipped st x.2.1 n i hstm
          (selLoop_evs_sub x.1 noHook skipHook _ st i hmem)
      · exact selLoop_state_invariant x.1 noHook skipHook
          (fun t => t.getD i false = true) (fun j t h => h)
          (skipHook_keeps_mark i) _ st hstm)
    x.2.2 s.1 s.2 hsz hmark

theorem parTickF_skipInvariant (n : Nat) :
    SkipInvariant n (fun _ => True) (parTickF n) := by
  intro x _ s i hsz hmark r hr
  have hr2 : r = (((statefulParallelTick x.1 x.2.1 n x.2.2 s.1 s.2).blob,
      (statefulParallelTick x.1 x.2.1 n x.2.2 s.1 s.2).state),
      (statefulParallelTick x.1 x.2.1 n x.2.2 s.1 s.2).status,
      (statefulParallelTick x.1 x.2.1 n x.2.2 s.1 s.2).evs) := by
    have : parTickF n x s = some r := hr
    rw [parTickF] at this
    exact (Option.some_inj.mp this).symm
  subst hr2
  exact statefulTick_skip_invariant
    (parUpdateF x.1 x.2.1 n true skipHook noHook) i n
    (fun ctx st hstn => by
      show (parLoop x.1 skipHook noHook
        (enqueueOrder true (considerOf true st) x.2.1 n) st).1.length = n
      rw [parLoop_state_invariant x.1 skipHook noHook
        (fun t => t.length = st.length)
        (fun j t h => by simpa [skipHook] using h)
        (fun j t h => h) _ st rfl]
      exact hstn)
    (fun ctx st hstn hstm => by
      constructor
      · intro hmem
        exact order_not_mem_skipped st x.2.1 n i hstm
          (parLoop_evs_sub x.1 skipHook noHook _ st i hmem)
      · exact parLoop_state_invariant x.1 skipHook noHook
          (fun t => t.getD i false = true) (skipHook_keeps_mark i)
          (fun j t h => h) _ st hstm)
    x.2.2 s.1 s.2 hsz hmark

theorem rsTickF_skipInvariant (n : Nat) :
    SkipInvariant n (fun x => ((List.range n).map x.2.1).sum < u32)
      (rsTickF n) := by
  intro x hpre s i hsz hmark r hr
  rcases hmm : statefulRandomSelectorTick x.1 x.2.1 n x.2.2.1 x.2.2.2.1
      x.2.2.2.2 s.1 s.2 with _ | t
  · have : rsTickF n x s = none := by rw [rsTickF, hmm]
    rw [this] at hr
    exact Option.noConfusion hr
  · have hr2 : r = ((t.blob, t.state), t.status, t.evs) := by
      have hsome : rsTickF n x s = some r := hr
      rw [rsTickF, hmm] at hsome
      exact (Option.some_inj.mp hsome).symm
    subst hr2
    have ht : t = nodeTick 0 (fun _ s2 => s2)
        (fun _ s2 =>
          ((randomSelectorUpdate x.1 x.2.1 n true skipHook x.2.2.1 x.2.2.2.1
            s2).1,
          ((randomSelectorUpdate x.1 x.2.1 n true skipHook x.2.2.1 x.2.2.2.1
            s2).2.1.getD .undefined),
          (randomSelectorUpdate x.1 x.2.1 n true skipHook x.2.2.1 x.2.2.2.1
            s2).2.2))
        statefulTerm x.2.2.2.2 s.1 s.2 := by
      rw [statefulRandomSelectorTick] at hmm
      rcases hcase : (randomSelectorUpdate x.1 x.2.1 n true skipHook x.2.2.1
          x.2.2.2.1 s.2).2.1 with _ | st0
      · rw [hcase] at hmm
        exact Option.noConfusion hmm
      · rw [hcase] at hmm
        exact (Option.some_inj.mp hmm).symm
    subst ht
    refine statefulTick_skip_invariant _ i n ?_ ?_ x.2.2.2.2 s.1 s.2 hsz hmark
    · intro ctx st hstn
      show (rsLoop x.1 x.2.1 n skipHook true x.2.2.1 _ x.2.2.2.1 st).1.length
        = n
      rw [rsLoop_length x.1 x.2.1 n skipHook true
        (fun j st2 => by simp [skipHook])]
      exact hstn
    · intro ctx st hstn hstm
      have hfsum : (((List.range n).filter (considerOf true st)).map
          x.2.1).sum < u32 := lt_of_le_of_lt (sum_filter_le x.2.1 _ _) hpre
      have hinv := rsLoop_skip_invariant x.1 x.2.1 n i hpre x.2.2.1
        (rsTotal (considerOf true st) x.2.1 n) x.2.2.2.1 st hstn hstm
        (rsTotal_eq_sum (considerOf true st) x.2.1 n hfsum)
      exact ⟨hinv.2.1, hinv.2.2⟩

/-- C6.  For every stateful composite — `StatefulSequenceNode` and
`StatefulParallelNode` (which `Skip` SUCCEEDED children), and
`StatefulSelectorNode` and `StatefulRandomSelectorNode` (which `Skip` FAILED
children) — a child marked in the per-entity skip bitset is never ticked by
that composite on this or any later tick of the round (single-tick
discipline `SkipInvariant`, iterated over RUNNING ticks by
`NeverTicksSkipped`), until the composite's own `OnTerminate` clears the
skip set on the round's terminal tick, so the next round starts clean.
The random selector additionally assumes the children's total priority fits
in `unsigned int` (no wrap-around of `total`). -/
theorem stateful_skip_round_discipline (n : Nat) :
    (SkipInvariant n (fun _ => True) (seqTickF n) ∧
      NeverTicksSkipped n (fun _ => True) (seqTickF n)) ∧
    (SkipInvariant n (fun _ => True) (selTickF n) ∧
      NeverTicksSkipped n (fun _ => True) (selTickF n)) ∧
    (SkipInvariant n (fun _ => True) (parTickF n) ∧
      NeverTicksSkipped n (fun _ => True) (parTickF n)) ∧
    (SkipInvariant n (fun x => ((List.range n).map x.2.1).sum < u32)
        (rsTickF n) ∧
      NeverTicksSkipped n (fun x => ((List.range n).map x.2.1).sum < u32)
        (rsTickF n)) :=
  ⟨⟨seqTickF_skipInvariant n,
      skipInvariant_never_ticks n _ _ (seqTickF_skipInvariant n)⟩,
    ⟨selTickF_skipInvariant n,
      skipInvariant_never_ticks n _ _ (selTickF_skipInvariant n)⟩,
    ⟨parTickF_skipInvariant n,
      skipInvariant_never_ticks n _ _ (parTickF_skipInvariant n)⟩,
    ⟨rsTickF_skipInvariant n,
      skipInvariant_never_ticks n _ _ (rsTickF_skipInvariant n)⟩⟩

/-- Witness for C6: a `StatefulSequenceNode` with two children, child 0
already marked as succeeded this round, both children RUNNING this tick. -/
theorem stateful_skip_round_discipline_witness :
    Ev.childTick 0 ∉
      (((statefulSequenceTick (fun _ => .running) (fun _ => 1) 2 ⟨1⟩
        {} [true, false]).blob,
      (statefulSequenceTick (fun _ => .running) (fun _ => 1) 2 ⟨1⟩
        {} [true, false]).state),
      (statefulSequenceTick (fun _ => .running) (fun _ => 1) 2 ⟨1⟩
        {} [true, false]).status,
      (statefulSequenceTick (fun _ => .running) (fun _ => 1) 2 ⟨1⟩
        {} [true, false]).evs).2.2 :=
  ((stateful_skip_round_discipline 2).1.1
    ((fun _ => Status.running), (fun _ => 1), (⟨1⟩ : Ctx))
    trivial (({} : NodeBlob), [true, false]) 0 (by decide) (by decide)
    _ rfl).2.1

end BT
